import Mathlib

/-!
Shallow embedding of `src/smplparameter2mesh/get_smpl.py` (class `SMPLModel`).

The NumPy float64 values are modelled by real numbers; NumPy arrays are
modelled by lists (with an explicit `shape` for the user-supplied `pose`
array, because `update` only consumes `pose` through
`pose.reshape((-1, 1, 3))`, which depends on the flattened data but whose
success depends only on the element count).  Every NumPy operation that can
raise a shape error (dot, reshape, hstack, broadcast add, fancy indexing)
is guarded by the corresponding dimension check, performed in the order in
which the Python code reaches it; all such failures are collapsed into the
single error value `Err.shapeMismatch`.  `np.empty` buffers are modelled by
an explicit parameter `g0` supplying the unspecified initial contents.
-/

namespace SMPL

noncomputable section

/-- 3-vectors (one row of an `(N, 3)` NumPy array). -/
abbrev Vec3 : Type := Fin 3 → ℝ

/-- 3×3 real matrices. -/
abbrev Mat3 : Type := Matrix (Fin 3) (Fin 3) ℝ

/-- Homogeneous 4×4 matrices, indexed by the 3 ⊕ 1 block decomposition. -/
abbrev HMat : Type := Matrix (Fin 3 ⊕ Fin 1) (Fin 3 ⊕ Fin 1) ℝ

/-- Machine epsilon of float64: `np.finfo(np.float64).eps = 2 ** -52`. -/
def eps64 : ℝ := 1 / 2 ^ 52

/-- Dot product of two lists of scalars (truncating at the shorter one;
the callers check the lengths first, as NumPy does). -/
def dotList (a b : List ℝ) : ℝ := (List.zipWith (· * ·) a b).sum

/-- Column matrix of a 3-vector. -/
def colv (v : Vec3) : Matrix (Fin 3) (Fin 1) ℝ := fun i _ => v i

/-- Row matrix of a 3-vector. -/
def rowv (v : Vec3) : Matrix (Fin 1) (Fin 3) ℝ := fun _ j => v j

/-- The recipient of `pose.reshape((-1, 1, 3))`: splits the flattened data
into consecutive triples. -/
def chunk3 : List ℝ → List Vec3
  | a :: b :: c :: t => ![a, b, c] :: chunk3 t
  | _ => []

/-- Rodrigues' formula for one axis-angle row, translated from
`SMPLModel.rodrigues` (lines 114–144): `theta` is the Euclidean norm of the
row clamped from below by machine epsilon, `rh = r / theta`, `m` is the
matrix assembled by the `np.dstack(...)` call, and the outer product is the
`np.matmul(A, B)` of the `(3,1)` and `(1,3)` reshapes of `rh`. -/
def rodrigues1 (r : Vec3) : Mat3 :=
  let theta : ℝ := max (Real.sqrt (r 0 ^ 2 + r 1 ^ 2 + r 2 ^ 2)) eps64
  let rh : Vec3 := fun j => r j / theta
  let m : Mat3 := Matrix.of ![![0, -rh 2, rh 1], ![rh 2, 0, -rh 0], ![-rh 1, rh 0, 0]]
  Real.cos theta • (1 : Mat3) + (1 - Real.cos theta) • (colv rh * rowv rh) +
    Real.sin theta • m

/-- Batched Rodrigues: the source maps the per-row formula over the
`[batch_size, 1, 3]` cube. -/
def rodrigues (rs : List Vec3) : List Mat3 := rs.map rodrigues1

/-- Translation of `SMPLModel.with_zeros` (lines 146–156): a `[3, 4]` matrix
`[x | t]` with a `[0, 0, 0, 1]` row appended. -/
def with_zeros (x : Mat3) (t : Vec3) : HMat :=
  Matrix.fromBlocks x (colv t) 0 1

/-- Translation of `SMPLModel.pack` (lines 158–169) applied to one `[4, 1]`
column `y`: a 4×4 matrix whose last column is `y` and which is zero
elsewhere. -/
def packCol (y : Fin 3 ⊕ Fin 1 → ℝ) : HMat :=
  Matrix.fromBlocks 0 (colv fun i => y (Sum.inl i)) 0
    (Matrix.of fun _ _ => y (Sum.inr 0))

/-- Row-major flattening of a 3×3 matrix (one block of `.ravel()`). -/
def flat9 (M : Mat3) : List ℝ :=
  [M 0 0, M 0 1, M 0 2, M 1 0, M 1 1, M 1 2, M 2 0, M 2 1, M 2 2]

/-- Translation of `lrotmin = (self.R[1:] - I_cube).ravel()` (line 88). -/
def lrotmin (Rs : List Mat3) : List ℝ :=
  ((Rs.drop 1).map (fun M => flat9 (M - 1))).flatten

/-- User-supplied NumPy array: nominal shape plus C-order flattened data. -/
structure NDArr where
  shape : List ℕ
  data : List ℝ

/-- The static rig parameters held by an `SMPLModel` instance
(`J_regressor`, `weights`, `posedirs`, `v_template`, `shapedirs`, `f`,
the number of columns of `kintree_table`, and the derived `parent` map).
The `(N, 3, ·)` blend-shape arrays are stored with their middle axis of
size 3 fixed by the type. -/
structure Model where
  J_regressor : List (List ℝ)
  weights : List (List ℝ)
  posedirs : List (Fin 3 → List ℝ)
  v_template : List Vec3
  shapedirs : List (Fin 3 → List ℝ)
  K : ℕ
  parent : ℕ → ℕ
  faces : List (ℤ × ℤ × ℤ)

/-- The mutable state of an `SMPLModel` instance: the three parameter
groups plus the cached derived buffers (`None` before first assignment). -/
structure State where
  pose : NDArr
  beta : List ℝ
  trans : List ℝ
  verts : Option (List Vec3)
  J : Option (List Vec3)
  R : Option (List Mat3)

/-- All NumPy shape failures (ValueError / IndexError) are collapsed into
one error value. -/
inductive Err
  | shapeMismatch
  deriving DecidableEq

/-- Line 78, first factor: `self.shapedirs.dot(self.beta)` (unchecked). -/
def sdirsDot (m : Model) (beta : List ℝ) : List Vec3 :=
  m.shapedirs.map fun row => fun j => dotList (row j) beta

/-- Line 78: `v_shaped = self.shapedirs.dot(self.beta) + self.v_template`. -/
def vShaped (m : Model) (beta : List ℝ) : List Vec3 :=
  List.zipWith (· + ·) (sdirsDot m beta) m.v_template

/-- One row of a matrix-vector product over lists of 3-vectors. -/
def wsum (r : List ℝ) (vs : List Vec3) : Vec3 :=
  (List.zipWith (fun c v => c • v) r vs).sum

/-- Line 80: `self.J = self.J_regressor.dot(v_shaped)`. -/
def restJ (m : Model) (beta : List ℝ) : List Vec3 :=
  m.J_regressor.map fun r => wsum r (vShaped m beta)

/-- Line 90, second summand: `self.posedirs.dot(lrotmin)` (unchecked). -/
def pdirsDot (m : Model) (x : List ℝ) : List Vec3 :=
  m.posedirs.map fun row => fun j => dotList (row j) x

/-- Lines 81–83: the rotation matrices of the current pose. -/
def poseR (pose : NDArr) : List Mat3 := rodrigues (chunk3 pose.data)

/-- Line 90: `v_posed = v_shaped + self.posedirs.dot(lrotmin)`. -/
def vPosed (m : Model) (pose : NDArr) (beta : List ℝ) : List Vec3 :=
  List.zipWith (· + ·) (vShaped m beta) (pdirsDot m (lrotmin (poseR pose)))

/-- The local transform written into `G[i]`: line 93 for the root, the
`with_zeros(np.hstack(...))` argument of line 95–101 for `i ≥ 1`. -/
def locMats (m : Model) (Rs : List Mat3) (J : List Vec3) : ℕ → HMat := fun i =>
  if i = 0 then with_zeros (Rs.getD 0 1) (J.getD 0 0)
  else with_zeros (Rs.getD i 1) (J.getD i 0 - J.getD (m.parent i) 0)

/-- Lines 92–101: `G = np.empty((K, 4, 4))`, `G[0] = ...`, then the loop
`G[i] = G[self.parent[i]].dot(...)` for `i = 1, …, K-1`, reading the
current (possibly still uninitialised) contents of `G`.  `g0` supplies the
unspecified contents of the `np.empty` buffer. -/
def buildG (K : ℕ) (p : ℕ → ℕ) (loc : ℕ → HMat) (g0 : ℕ → HMat) : List HMat :=
  (List.range (K - 1)).foldl
    (fun G n => G.set (n + 1) (G.getD (p (n + 1)) 0 * loc (n + 1)))
    (((List.range K).map g0).set 0 (loc 0))

/-- Lines 102–107: `G = G - self.pack(np.matmul(G, [J, 0]))`, the rest-pose
correction applied to every joint transform. -/
def gPrime (G : List HMat) (J : List Vec3) : List HMat :=
  List.zipWith (fun Gi Ji => Gi - packCol (Gi.mulVec (Sum.elim Ji fun _ => 0))) G J

/-- Line 109: one row of `T = np.tensordot(self.weights, G, axes=[[1], [0]])`. -/
def blendT (row : List ℝ) (G : List HMat) : HMat :=
  (List.zipWith (fun w M => w • M) row G).sum

/-- Line 111: apply a blended transform to the homogeneous coordinates of a
rest vertex and keep the first three coordinates. -/
def applyT (T : HMat) (p : Vec3) : Vec3 :=
  fun l => T.mulVec (Sum.elim p fun _ => 1) (Sum.inl l)

/-- Line 112: `self.trans.reshape([1, 3])` as a 3-vector. -/
def transVec (t : List ℝ) : Vec3 := fun l => t.getD l 0

/-- The full deformation pipeline of `SMPLModel.update` (lines 73–112) with
all shape checks removed; `update` runs it only after those checks pass. -/
def computeVerts (m : Model) (g0 : ℕ → HMat) (pose : NDArr) (beta trans : List ℝ) :
    List Vec3 :=
  List.zipWith (fun Tv vp => applyT Tv vp + transVec trans)
    (m.weights.map fun row => blendT row
      (gPrime (buildG m.K m.parent (locMats m (poseR pose) (restJ m beta)) g0)
        (restJ m beta)))
    (vPosed m pose beta)

/-- Shape conditions for line 78: the last axis of `shapedirs` must match
`beta`, and the resulting `(N, 3)` displacement must add to `v_template`.
The embedding checks the two vertex counts for exact equality; NumPy's add
would additionally broadcast a length-1 operand, a case that arises only
for rigs whose arrays disagree on the vertex count, so the embedded
success condition is (strictly) stronger than the program's there. -/
abbrev sdOk (m : Model) (beta : List ℝ) : Prop :=
  (∀ row ∈ m.shapedirs, ∀ j : Fin 3, (row j).length = beta.length) ∧
    m.shapedirs.length = m.v_template.length

/-- Shape condition for line 80: the rows of `J_regressor` must match the
number of vertices. -/
abbrev jrOk (m : Model) : Prop :=
  ∀ r ∈ m.J_regressor, r.length = m.v_template.length

/-- Shape conditions met by the Python code after `self.R` is assigned:
`np.broadcast_to` needs a nonnegative batch dimension (line 84);
`posedirs.dot(lrotmin)` and the following add need matching sizes
(line 90); the `G` loop indexes `R`, `J`, and `G` (lines 92–101); the
rest-pose correction hard-codes a 24-row stack (line 105), whose
`np.hstack` demands a 24-row `J` (concatenation never broadcasts);
`tensordot` matches the columns of `weights` against the rows of the
corrected `G` (line 109); `matmul` matches the batch of `T` against
`v_posed` (line 111); and `trans.reshape([1, 3])` needs exactly three
scalars (line 112).  The batched `np.matmul` of line 103 and the
subtraction of line 102 broadcast the K-deep `G` against the 24-deep
stack, which NumPy accepts for K = 24 and also for the degenerate K = 1
of a rig whose one-column `kintree_table` disagrees with its 24-row
regressor and N×24 weights; the embedding requires K = 24, i.e. it
models only rigs whose arrays agree on the joint count, so its success
condition is strictly stronger than the program's on that point (success
in the embedding implies success in the program, not conversely). -/
abbrev restOk (m : Model) (pose : NDArr) (trans : List ℝ) : Prop :=
  1 ≤ pose.data.length / 3 ∧
  (∀ row ∈ m.posedirs, ∀ j : Fin 3, (row j).length = 9 * (pose.data.length / 3 - 1)) ∧
  m.posedirs.length = m.v_template.length ∧
  1 ≤ m.K ∧ m.K ≤ pose.data.length / 3 ∧ m.K ≤ m.J_regressor.length ∧
  (∀ i, i < m.K → 1 ≤ i → m.parent i < m.K) ∧
  m.J_regressor.length = 24 ∧ m.K = 24 ∧
  (∀ row ∈ m.weights, row.length = m.K) ∧
  m.weights.length = m.v_template.length ∧
  trans.length = 3

/-- All shape conditions of one `update` call together. -/
abbrev updChecks (m : Model) (pose : NDArr) (beta trans : List ℝ) : Prop :=
  sdOk m beta ∧ jrOk m ∧ pose.data.length % 3 = 0 ∧ restOk m pose trans

/-- Translation of `SMPLModel.update` (lines 73–112), with the state
mutations at their Python program points: `self.J` is assigned at line 80
(after the `J_regressor.dot` succeeds), `self.R` at line 83 (after the
`reshape` succeeds), and `self.verts` at line 112 only when every check has
passed.  A failing NumPy operation aborts with the mutations made so far. -/
def update (m : Model) (g0 : ℕ → HMat) (s : State) : State × Option Err :=
  if sdOk m s.beta then
    if jrOk m then
      if s.pose.data.length % 3 = 0 then
        if restOk m s.pose s.trans then
          ({ s with J := some (restJ m s.beta), R := some (poseR s.pose),
                    verts := some (computeVerts m g0 s.pose s.beta s.trans) }, none)
        else ({ s with J := some (restJ m s.beta), R := some (poseR s.pose) },
          some .shapeMismatch)
      else ({ s with J := some (restJ m s.beta) }, some .shapeMismatch)
    else (s, some .shapeMismatch)
  else (s, some .shapeMismatch)

/-- The state at line 70 of `set_params`: every supplied argument has been
stored, every omitted argument keeps its previous value. -/
def mergeState (s : State) (pose : Option NDArr)
    (beta : Option (List ℝ)) (trans : Option (List ℝ)) : State :=
  { s with pose := pose.getD s.pose, beta := beta.getD s.beta,
           trans := trans.getD s.trans }

/-- Translation of `SMPLModel.set_params` (lines 48–71): each supplied
argument is stored before `update` runs, omitted arguments keep their
previous value, and the stored vertex buffer is returned on success. -/
def set_params (m : Model) (g0 : ℕ → HMat) (s : State)
    (pose : Option NDArr) (beta : Option (List ℝ)) (trans : Option (List ℝ)) :
    State × Except Err (List Vec3) :=
  match update m g0 (mergeState s pose beta trans) with
  | (s2, none) => (s2, .ok (s2.verts.getD []))
  | (s2, some e) => (s2, .error e)

/-- An `update` call succeeds exactly when all its shape checks pass. -/
theorem update_ok_iff (m : Model) (g0 : ℕ → HMat) (s : State) :
    (update m g0 s).2 = none ↔ updChecks m s.pose s.beta s.trans := by
  unfold update
  split_ifs with h1 h2 h3 h4
  · exact ⟨fun _ => ⟨h1, h2, h3, h4⟩, fun _ => rfl⟩
  · exact ⟨fun h => h.elim, fun hc => absurd hc.2.2.2 h4⟩
  · exact ⟨fun h => h.elim, fun hc => absurd hc.2.2.1 h3⟩
  · exact ⟨fun h => h.elim, fun hc => absurd hc.2.1 h2⟩
  · exact ⟨fun h => h.elim, fun hc => absurd hc.1 h1⟩

/-- A successful `update` stores the recomputed caches and vertex buffer. -/
theorem update_ok_eq (m : Model) (g0 : ℕ → HMat) (s : State)
    (h : updChecks m s.pose s.beta s.trans) :
    update m g0 s =
      ({ s with J := some (restJ m s.beta), R := some (poseR s.pose),
                verts := some (computeVerts m g0 s.pose s.beta s.trans) }, none) := by
  obtain ⟨h1, h2, h3, h4⟩ := h
  unfold update
  rw [if_pos h1, if_pos h2, if_pos h3, if_pos h4]

/-- `update` never touches the three parameter fields. -/
theorem update_params_eq (m : Model) (g0 : ℕ → HMat) (s : State) :
    (update m g0 s).1.pose = s.pose ∧ (update m g0 s).1.beta = s.beta ∧
      (update m g0 s).1.trans = s.trans := by
  unfold update
  split_ifs <;> exact ⟨rfl, rfl, rfl⟩

/-- A failing `update` leaves the vertex buffer untouched (every failure
point precedes the line-112 assignment to `self.verts`). -/
theorem update_verts_of_err (m : Model) (g0 : ℕ → HMat) (s : State)
    (h : (update m g0 s).2 ≠ none) : (update m g0 s).1.verts = s.verts := by
  unfold update at h ⊢
  split_ifs at h ⊢
  · exact absurd rfl h
  all_goals rfl

/-- Result of a `set_params` call: the vertex buffer recomputed from the
merged parameters when the shape checks pass, a shape-mismatch error
otherwise. -/
theorem set_params_res (m : Model) (g0 : ℕ → HMat) (s : State)
    (p : Option NDArr) (b t : Option (List ℝ)) :
    (set_params m g0 s p b t).2 =
      if updChecks m (p.getD s.pose) (b.getD s.beta) (t.getD s.trans) then
        .ok (computeVerts m g0 (p.getD s.pose) (b.getD s.beta) (t.getD s.trans))
      else .error .shapeMismatch := by
  by_cases h : updChecks m (p.getD s.pose) (b.getD s.beta) (t.getD s.trans)
  · rw [if_pos h]
    unfold set_params
    rw [update_ok_eq m g0 (mergeState s p b t) h]
    rfl
  · rw [if_neg h]
    unfold set_params
    rcases hu : update m g0 (mergeState s p b t) with ⟨s2, e⟩
    rcases e with _ | e
    · exact absurd ((update_ok_iff m g0 (mergeState s p b t)).1 (by rw [hu])) h
    · cases e; rfl

/-- State after a `set_params` call: the supplied parameters are stored
(before validation), and the vertex buffer survives exactly the failing
calls. -/
theorem set_params_state (m : Model) (g0 : ℕ → HMat) (s : State)
    (p : Option NDArr) (b t : Option (List ℝ)) :
    (set_params m g0 s p b t).1.pose = p.getD s.pose ∧
    (set_params m g0 s p b t).1.beta = b.getD s.beta ∧
    (set_params m g0 s p b t).1.trans = t.getD s.trans ∧
    (∀ e, (set_params m g0 s p b t).2 = .error e →
      (set_params m g0 s p b t).1.verts = s.verts) ∧
    (∀ v, (set_params m g0 s p b t).2 = .ok v →
      (set_params m g0 s p b t).1.verts = some v) := by
  unfold set_params
  rcases hu : update m g0 (mergeState s p b t) with ⟨s2, e⟩
  have hp := update_params_eq m g0 (mergeState s p b t)
  rw [hu] at hp
  rcases e with _ | e
  · refine ⟨hp.1, hp.2.1, hp.2.2, ?_, ?_⟩
    · intro e he; exact Except.noConfusion he
    · intro v hv
      simp only [Except.ok.injEq] at hv
      have heq := update_ok_eq m g0 (mergeState s p b t)
        ((update_ok_iff m g0 (mergeState s p b t)).1 (by rw [hu]))
      rw [hu] at heq
      have hs2 := congrArg Prod.fst heq
      simp only at hs2
      subst hs2
      simp_all
  · have hv := update_verts_of_err m g0 (mergeState s p b t) (by rw [hu]; simp)
    rw [hu] at hv
    exact ⟨hp.1, hp.2.1, hp.2.2, fun _ _ => hv, fun v hv' => Except.noConfusion hv'⟩

/-- The composed world transform of joint `i` along the hierarchy,
`G_i = G_(parent i) · local_i`, well defined by recursion when every
non-root joint's parent has a smaller index. -/
def Gchain (p : ℕ → ℕ) (loc : ℕ → HMat) : ℕ → HMat
  | 0 => loc 0
  | i + 1 =>
    (if h : p (i + 1) < i + 1 then Gchain p loc (p (i + 1)) else 0) * loc (i + 1)
termination_by i => i
decreasing_by exact h

theorem Gchain_zero (p : ℕ → ℕ) (loc : ℕ → HMat) : Gchain p loc 0 = loc 0 := by
  rw [Gchain]

theorem Gchain_succ (p : ℕ → ℕ) (loc : ℕ → HMat) (i : ℕ) (h : p (i + 1) < i + 1) :
    Gchain p loc (i + 1) = Gchain p loc (p (i + 1)) * loc (i + 1) := by
  rw [Gchain, dif_pos h]

theorem getD_set_ne {α : Type _} (l : List α) {i j : ℕ} (h : i ≠ j) (a d : α) :
    (l.set i a).getD j d = l.getD j d := by
  simp [List.getD, List.getElem?_set_ne h]

theorem getD_set_self {α : Type _} (l : List α) {i : ℕ} (h : i < l.length)
    (a d : α) : (l.set i a).getD i d = a := by
  simp [List.getD, List.getElem?_set_self, h]

/-- The `G` buffer of lines 92–101 after the first `j` iterations of the
filling loop. -/
def buildGAux (K : ℕ) (p : ℕ → ℕ) (loc : ℕ → HMat) (g0 : ℕ → HMat) (j : ℕ) :
    List HMat :=
  (List.range j).foldl
    (fun G n => G.set (n + 1) (G.getD (p (n + 1)) 0 * loc (n + 1)))
    (((List.range K).map g0).set 0 (loc 0))

theorem buildG_eq_aux (K : ℕ) (p : ℕ → ℕ) (loc : ℕ → HMat) (g0 : ℕ → HMat) :
    buildG K p loc g0 = buildGAux K p loc g0 (K - 1) := rfl

theorem buildGAux_succ (K : ℕ) (p : ℕ → ℕ) (loc : ℕ → HMat) (g0 : ℕ → HMat)
    (j : ℕ) :
    buildGAux K p loc g0 (j + 1) =
      (buildGAux K p loc g0 j).set (j + 1)
        ((buildGAux K p loc g0 j).getD (p (j + 1)) 0 * loc (j + 1)) := by
  unfold buildGAux
  rw [List.range_succ, List.foldl_append, List.foldl_cons, List.foldl_nil]

/-- Invariant of the `G`-filling loop of lines 94–101: after the first `j`
iterations, slots `0..j` hold the composed transforms and the remaining
slots still hold the uninitialised `np.empty` contents. -/
theorem buildG_loop_inv (K : ℕ) (p : ℕ → ℕ) (loc : ℕ → HMat) (g0 : ℕ → HMat)
    (hdec : ∀ i, i < K → 1 ≤ i → p i < i) :
    ∀ j, j ≤ K - 1 →
      (buildGAux K p loc g0 j).length = K ∧
      (∀ i, i < K → i ≤ j →
        (buildGAux K p loc g0 j).getD i 0 = Gchain p loc i) ∧
      (∀ i, i < K → j < i → (buildGAux K p loc g0 j).getD i 0 = g0 i) := by
  intro j
  induction j with
  | zero =>
    intro _
    refine ⟨by simp [buildGAux], ?_, ?_⟩
    · intro i hiK hi0
      interval_cases i
      rw [Gchain_zero]
      have hK : 0 < ((List.range K).map g0).length := by simpa using hiK
      exact getD_set_self _ hK _ _
    · intro i hiK hi0
      have hne : (0 : ℕ) ≠ i := by omega
      rw [buildGAux, List.range_zero, List.foldl_nil, getD_set_ne _ hne]
      simp [List.getD, List.getElem?_map, List.getElem?_range hiK]
  | succ j ih =>
    intro hj
    obtain ⟨ihl, ihlow, ihhigh⟩ := ih (by omega)
    have hjK : j + 1 < K := by omega
    have hpj : p (j + 1) < j + 1 := hdec (j + 1) hjK (by omega)
    have hval : (buildGAux K p loc g0 j).getD (p (j + 1)) 0 =
        Gchain p loc (p (j + 1)) := ihlow (p (j + 1)) (by omega) (by omega)
    refine ⟨by rw [buildGAux_succ]; simpa using ihl, ?_, ?_⟩
    · intro i hiK hij
      rcases Nat.lt_or_ge i (j + 1) with hlt | hge
      · have hne : j + 1 ≠ i := by omega
        rw [buildGAux_succ, getD_set_ne _ hne]
        exact ihlow i hiK (by omega)
      · have hieq : i = j + 1 := by omega
        subst hieq
        rw [buildGAux_succ, getD_set_self _ (by rw [ihl]; exact hiK), hval,
          ← Gchain_succ p loc _ hpj]
    · intro i hiK hij
      have hne : j + 1 ≠ i := by omega
      rw [buildGAux_succ, getD_set_ne _ hne]
      exact ihhigh i hiK (by omega)

/-- When every non-root parent index is smaller than its child, the `G`
buffer computed by the loop holds exactly the composed chain transforms
(independently of the `np.empty` contents `g0`). -/
theorem buildG_getD (K : ℕ) (p : ℕ → ℕ) (loc : ℕ → HMat) (g0 : ℕ → HMat)
    (hdec : ∀ i, i < K → 1 ≤ i → p i < i) (i : ℕ) (hi : i < K) :
    (buildG K p loc g0).getD i 0 = Gchain p loc i := by
  rw [buildG_eq_aux]
  exact (buildG_loop_inv K p loc g0 hdec (K - 1) le_rfl).2.1 i hi (by omega)

theorem buildG_length (K : ℕ) (p : ℕ → ℕ) (loc : ℕ → HMat) (g0 : ℕ → HMat)
    (hdec : ∀ i, i < K → 1 ≤ i → p i < i) :
    (buildG K p loc g0).length = K := by
  rw [buildG_eq_aux]
  exact (buildG_loop_inv K p loc g0 hdec (K - 1) le_rfl).1

/-- A parent map is a valid tree over `K` joints when every non-root joint
has an in-range parent and reaches the root by iterating the map. -/
def validTree (K : ℕ) (p : ℕ → ℕ) : Prop :=
  ∀ i, i < K → 1 ≤ i → p i < K ∧ ∃ n, p^[n] i = 0

/-- Under the parent-before-child index order, the loop's result does not
depend on the `np.empty` contents. -/
theorem buildG_g0_indep (K : ℕ) (p : ℕ → ℕ) (loc : ℕ → HMat)
    (g0 g0' : ℕ → HMat) (hdec : ∀ i, i < K → 1 ≤ i → p i < i) :
    buildG K p loc g0 = buildG K p loc g0' := by
  apply List.ext_getElem
    (by rw [buildG_length K p loc g0 hdec, buildG_length K p loc g0' hdec])
  intro i h1 h2
  have hiK : i < K := by rwa [buildG_length K p loc g0 hdec] at h1
  have e1 := buildG_getD K p loc g0 hdec i hiK
  have e2 := buildG_getD K p loc g0' hdec i hiK
  rw [List.getD_eq_getElem _ _ h1] at e1
  rw [List.getD_eq_getElem _ _ h2] at e2
  rw [e1, e2]

/-- The whole pipeline is independent of the `np.empty` contents when the
parent order is well founded. -/
theorem computeVerts_g0_indep (m : Model) (g0 g0' : ℕ → HMat) (pose : NDArr)
    (beta trans : List ℝ) (hdec : ∀ i, i < m.K → 1 ≤ i → m.parent i < i) :
    computeVerts m g0 pose beta trans = computeVerts m g0' pose beta trans := by
  unfold computeVerts
  rw [buildG_g0_indep m.K m.parent (locMats m (poseR pose) (restJ m beta))
    g0 g0' hdec]

/-- A well-formed single-vertex 24-joint rig used to exercise the pipeline
on concrete inputs: zero blend bases, a zero joint regressor, all skinning
weight on the root joint, and a strictly decreasing parent chain. -/
def M0 : Model where
  J_regressor := List.replicate 24 [0]
  weights := [1 :: List.replicate 23 0]
  posedirs := [fun _ => List.replicate 207 0]
  v_template := [![1, 2, 3]]
  shapedirs := [fun _ => List.replicate 10 0]
  K := 24
  parent := fun i => i - 1
  faces := []

/-- The state created by `SMPLModel.__init__` before its first `update`:
zero pose of shape `[24, 3]`, zero shape, zero translation, empty caches. -/
def s00 : State where
  pose := ⟨[24, 3], List.replicate 72 0⟩
  beta := List.replicate 10 0
  trans := List.replicate 3 0
  verts := none
  J := none
  R := none

/-- One fixed choice for the unspecified `np.empty` contents. -/
def g0def : ℕ → HMat := fun _ => 0

/-- A second choice for the `np.empty` contents, the identity everywhere. -/
def g1def : ℕ → HMat := fun _ => 1

/-- A state differing from `s00` in every cached buffer. -/
def s01 : State :=
  { s00 with verts := some [![9, 9, 9]], J := some [], R := some [] }

/-- C10.  The loop of lines 94–101 fills `G` in increasing joint order
reading `G[parent[i]]`, so the recurrence `G_i = G_parent(i) · local_i` is
guaranteed exactly under `parent[i] < i` for every non-root `i`: it always
holds under that order (first conjunct, for every `np.empty` content `g0`),
and there is a perfectly valid tree violating that order on which the
recurrence fails for some `np.empty` contents (second conjunct) — so the
requirement is strictly stronger than the parent map being a tree. -/
theorem C10_loop_requires_parent_order :
    (∀ (K : ℕ) (p : ℕ → ℕ) (loc g0 : ℕ → HMat),
      (∀ i, i < K → 1 ≤ i → p i < i) →
      ∀ i, i < K → 1 ≤ i →
        (buildG K p loc g0).getD i 0 =
          (buildG K p loc g0).getD (p i) 0 * loc i) ∧
    (∃ (K : ℕ) (p : ℕ → ℕ) (loc g0 : ℕ → HMat),
      validTree K p ∧ ¬(∀ i, i < K → 1 ≤ i → p i < i) ∧
      (buildG K p loc g0).getD 1 0 ≠
        (buildG K p loc g0).getD (p 1) 0 * loc 1) := by
  constructor
  · intro K p loc g0 hdec i hiK hi1
    obtain ⟨i', rfl⟩ : ∃ i', i = i' + 1 := ⟨i - 1, by omega⟩
    rw [buildG_getD K p loc g0 hdec _ hiK,
      buildG_getD K p loc g0 hdec _ (lt_trans (hdec _ hiK hi1) hiK),
      Gchain_succ p loc i' (hdec _ hiK hi1)]
  · refine ⟨3, fun i => if i = 1 then 2 else 0, fun _ => 1,
      fun _ => (2 : ℝ) • 1, ?_, ?_, ?_⟩
    · intro i hi h1
      interval_cases i
      · exact ⟨by norm_num, 2, by
          simp [Function.iterate_succ_apply, Function.iterate_zero_apply]⟩
      · exact ⟨by norm_num, 1, by
          simp [Function.iterate_succ_apply, Function.iterate_zero_apply]⟩
    · intro hall
      have h1 := hall 1 (by norm_num) (by norm_num)
      norm_num at h1
    · have hb : buildG 3 (fun i => if i = 1 then 2 else 0) (fun _ => 1)
          (fun _ => (2 : ℝ) • 1) =
          [1, ((2 : ℝ) • (1 : HMat)) * 1, 1 * 1] := rfl
      rw [hb]
      show ((2 : ℝ) • (1 : HMat)) * 1 ≠ 1 * 1 * 1
      intro h
      simp only [mul_one, one_mul] at h
      have h2 := congrFun (congrFun h (Sum.inl 0)) (Sum.inl 0)
      simp [Matrix.smul_apply, Matrix.one_apply] at h2

/-- C9.  Determinism and state-independence of `set_params` when all three
parameter groups are supplied: the returned result depends only on the
model and the supplied arrays — not on the previous state, the cached
buffers, or the contents of the `np.empty` scratch buffer (provided the
rig's parent order is well founded, as it is for the SMPL rig; otherwise
the uninitialised buffer would leak into the output). -/
theorem C9_set_params_deterministic (m : Model) (s s' : State)
    (g0 g0' : ℕ → HMat) (p : NDArr) (b t : List ℝ)
    (hdec : ∀ i, i < m.K → 1 ≤ i → m.parent i < i) :
    (set_params m g0 s (some p) (some b) (some t)).2 =
      (set_params m g0' s' (some p) (some b) (some t)).2 := by
  rw [set_params_res, set_params_res]
  simp only [Option.getD_some]
  by_cases h : updChecks m p b t
  · rw [if_pos h, if_pos h, computeVerts_g0_indep m g0 g0' p b t hdec]
  · rw [if_neg h, if_neg h]

/-- Witness for C9: on the concrete rig `M0`, runs from two different
cached states and two different scratch buffers return the same result. -/
theorem C9_witness :
    (set_params M0 g0def s00 (some s00.pose) (some s00.beta)
        (some s00.trans)).2 =
      (set_params M0 g1def s01 (some s00.pose) (some s00.beta)
        (some s00.trans)).2 :=
  C9_set_params_deterministic M0 s00 s01 g0def g1def s00.pose s00.beta
    s00.trans (by decide)

/-- Witness for C10: the first conjunct applied to the 24-joint chain rig
at joint 5. -/
theorem C10_witness :
    (buildG 24 (fun i => i - 1) (fun _ => 1) g0def).getD 5 0 =
      (buildG 24 (fun i => i - 1) (fun _ => 1) g0def).getD 4 0 * 1 :=
  C10_loop_requires_parent_order.1 24 (fun i => i - 1) (fun _ => 1) g0def
    (by decide) 5 (by decide) (by decide)

/-- Well-formedness of a loaded rig with the reference dimensions: the
blend bases have their documented last axes (10 shape, 207 pose
coefficients), all per-vertex arrays agree on the vertex count, there is at
least one vertex, the joint count is the reference 24, and parents stay in
range. -/
abbrev rigWF (m : Model) : Prop :=
  (∀ row ∈ m.shapedirs, ∀ j : Fin 3, (row j).length = 10) ∧
  m.shapedirs.length = m.v_template.length ∧
  (∀ r ∈ m.J_regressor, r.length = m.v_template.length) ∧
  (∀ row ∈ m.posedirs, ∀ j : Fin 3, (row j).length = 207) ∧
  m.posedirs.length = m.v_template.length ∧
  1 ≤ m.v_template.length ∧
  m.K = 24 ∧
  m.J_regressor.length = 24 ∧
  (∀ i, i < m.K → 1 ≤ i → m.parent i < m.K) ∧
  (∀ row ∈ m.weights, row.length = m.K) ∧
  m.weights.length = m.v_template.length

/-- On a well-formed reference rig the shape checks of `update` reduce to
element-count conditions on the three supplied arrays: 72 scalars of pose
(in any nominal shape), 10 of shape, 3 of translation. -/
theorem updChecks_iff_wf (m : Model) (hm : rigWF m) (pose : NDArr)
    (beta trans : List ℝ) :
    updChecks m pose beta trans ↔
      pose.data.length = 72 ∧ beta.length = 10 ∧ trans.length = 3 := by
  obtain ⟨w1, w2, w3, w4, w5, w6, w7, w8, w9, w10, w11⟩ := hm
  constructor
  · rintro ⟨⟨c1a, _⟩, _, c3, r1, r2, r3, r4, r5, r6, r7, r8, r9, r10, r11, r12⟩
    obtain ⟨sd0, hsd0⟩ :=
      List.exists_mem_of_length_pos (show 0 < m.shapedirs.length by omega)
    obtain ⟨pd0, hpd0⟩ :=
      List.exists_mem_of_length_pos (show 0 < m.posedirs.length by omega)
    have h1 := c1a sd0 hsd0 0
    have h2 := w1 sd0 hsd0 0
    have h3 := r2 pd0 hpd0 0
    have h4 := w4 pd0 hpd0 0
    exact ⟨by omega, by omega, r12⟩
  · rintro ⟨hp, hb, ht⟩
    exact ⟨⟨fun row hr j => by rw [w1 row hr j, hb], w2⟩, w3, by omega,
      by omega, fun row hr j => by rw [w4 row hr j]; omega, w5, by omega,
      by omega, by omega, w9, w8, w7, w10, w11, ht⟩

/-- C1 (amended).  On a well-formed rig, `set_params` succeeds if and only
if the supplied pose flattens to 72 scalars (whatever its nominal shape),
the supplied shape vector has 10, and the supplied translation has 3;
otherwise it fails with the shape-mismatch error.  (The original claim's
failure condition — any array not matching `[24,3]`/`[10]`/`[3]` — is
refuted by `C1_counterexample`.) -/
theorem C1_set_params_succeeds_iff_counts (m : Model) (g0 : ℕ → HMat)
    (s : State) (pose : NDArr) (beta trans : List ℝ) (hm : rigWF m) :
    ((set_params m g0 s (some pose) (some beta) (some trans)).2.isOk = true ↔
      pose.data.length = 72 ∧ beta.length = 10 ∧ trans.length = 3) := by
  rw [set_params_res]
  simp only [Option.getD_some]
  by_cases hc : updChecks m pose beta trans
  · rw [if_pos hc]
    exact ⟨fun _ => (updChecks_iff_wf m hm pose beta trans).1 hc, fun _ => rfl⟩
  · rw [if_neg hc]
    constructor
    · intro h; exact Bool.noConfusion h
    · intro h; exact absurd ((updChecks_iff_wf m hm pose beta trans).2 h) hc

set_option maxRecDepth 10000 in
/-- Witness for C1: the concrete rig `M0` is well formed, and on it the
`__init__` parameters (72-element pose, 10-element shape, 3-element
translation) make `set_params` succeed. -/
theorem C1_witness :
    rigWF M0 ∧
      ((set_params M0 g0def s00 (some s00.pose) (some s00.beta)
          (some s00.trans)).2.isOk = true ↔
        s00.pose.data.length = 72 ∧ s00.beta.length = 10 ∧
          s00.trans.length = 3) :=
  ⟨by decide,
    C1_set_params_succeeds_iff_counts M0 g0def s00 s00.pose s00.beta
      s00.trans (by decide)⟩

/-- A pose array of nominal shape `[72]`: 72 scalars, but not of the rig's
documented `[24, 3]` dimensionality. -/
def pose72 : NDArr := ⟨[72], List.replicate 72 0⟩

set_option maxRecDepth 10000 in
/-- Counterexample to C1 as stated: a flat pose of shape `[72]` does not
match the rig's `[24, 3]` dimensionality, yet `set_params` succeeds,
because line 81 only reshapes the flattened data. -/
theorem C1_counterexample :
    pose72.shape ≠ [24, 3] ∧
      (set_params M0 g0def s00 (some pose72) none none).2.isOk = true := by
  refine ⟨by decide, ?_⟩
  rw [set_params_res]
  simp only [Option.getD_some, Option.getD_none]
  rw [if_pos (by decide)]
  rfl

/-- A malformed pose array: a single scalar, so that even the reshape of
line 81 fails. -/
def poseBad : NDArr := ⟨[1], [0]⟩

set_option maxRecDepth 10000 in
/-- Counterexample to C2 as stated: a failing `set_params` call has already
overwritten the stored pose (line 65 precedes the failing `update`), so the
update is not all-or-nothing. -/
theorem C2_counterexample :
    (set_params M0 g0def s00 (some poseBad) none none).2.isOk = false ∧
      (set_params M0 g0def s00 (some poseBad) none none).1.pose ≠ s00.pose := by
  constructor
  · rw [set_params_res]
    simp only [Option.getD_some, Option.getD_none]
    rw [if_neg (by decide)]
    rfl
  · have hp := (set_params_state M0 g0def s00 (some poseBad) none none).1
    rw [hp]
    intro h
    exact absurd (congrArg NDArr.shape h) (by decide)

/-- C2 (amended).  A failing `set_params` call leaves the cached vertex
buffer unchanged, but the three parameter fields have already been
overwritten with the merged arguments: the supplied arrays are stored at
lines 64–69 before any validation happens inside `update`, so errors do
cause a partial update of the parameter state. -/
theorem C2_err_keeps_verts_but_stores_params (m : Model) (g0 : ℕ → HMat)
    (s : State) (p : Option NDArr) (b t : Option (List ℝ)) (e : Err)
    (h : (set_params m g0 s p b t).2 = .error e) :
    (set_params m g0 s p b t).1.verts = s.verts ∧
    (set_params m g0 s p b t).1.pose = p.getD s.pose ∧
    (set_params m g0 s p b t).1.beta = b.getD s.beta ∧
    (set_params m g0 s p b t).1.trans = t.getD s.trans := by
  obtain ⟨h1, h2, h3, h4, _⟩ := set_params_state m g0 s p b t
  exact ⟨h4 e h, h1, h2, h3⟩

set_option maxRecDepth 10000 in
/-- Witness for C2 (amended): on the concrete failing call, the vertex
buffer is kept and the bad pose is stored. -/
theorem C2_witness :
    (set_params M0 g0def s00 (some poseBad) none none).1.verts = s00.verts ∧
    (set_params M0 g0def s00 (some poseBad) none none).1.pose = poseBad ∧
    (set_params M0 g0def s00 (some poseBad) none none).1.beta = s00.beta ∧
    (set_params M0 g0def s00 (some poseBad) none none).1.trans = s00.trans :=
  C2_err_keeps_verts_but_stores_params M0 g0def s00 (some poseBad) none none
    .shapeMismatch
    (by rw [set_params_res]
        simp only [Option.getD_some, Option.getD_none]
        rw [if_neg (by decide)])

/-- C7.  A successful `set_params` call stores the supplied arrays, keeps
the previous value of every omitted parameter group, recomputes the full
pipeline eagerly, and returns exactly the newly stored vertex buffer. -/
theorem C7_subset_update_semantics (m : Model) (g0 : ℕ → HMat) (s : State)
    (p : Option NDArr) (b t : Option (List ℝ)) (v : List Vec3)
    (h : (set_params m g0 s p b t).2 = .ok v) :
    (set_params m g0 s p b t).1.pose = p.getD s.pose ∧
    (set_params m g0 s p b t).1.beta = b.getD s.beta ∧
    (set_params m g0 s p b t).1.trans = t.getD s.trans ∧
    (set_params m g0 s p b t).1.verts = some v ∧
    v = computeVerts m g0 (p.getD s.pose) (b.getD s.beta) (t.getD s.trans) := by
  obtain ⟨h1, h2, h3, _, h5⟩ := set_params_state m g0 s p b t
  refine ⟨h1, h2, h3, h5 v h, ?_⟩
  have hr := set_params_res m g0 s p b t
  rw [h] at hr
  by_cases hc : updChecks m (p.getD s.pose) (b.getD s.beta) (t.getD s.trans)
  · rw [if_pos hc] at hr
    simpa using hr
  · rw [if_neg hc] at hr
    exact Except.noConfusion hr

set_option maxRecDepth 10000 in
/-- Witness for C7: a call with all three arguments omitted keeps the
current parameters and returns the freshly recomputed buffer. -/
theorem C7_witness :
    (set_params M0 g0def s00 none none none).1.pose = s00.pose ∧
    (set_params M0 g0def s00 none none none).1.beta = s00.beta ∧
    (set_params M0 g0def s00 none none none).1.trans = s00.trans ∧
    (set_params M0 g0def s00 none none none).1.verts =
      some (computeVerts M0 g0def s00.pose s00.beta s00.trans) ∧
    computeVerts M0 g0def s00.pose s00.beta s00.trans =
      computeVerts M0 g0def s00.pose s00.beta s00.trans :=
  C7_subset_update_semantics M0 g0def s00 none none none
    (computeVerts M0 g0def s00.pose s00.beta s00.trans) rfl

/-- The vertex count of the computed buffer does not depend on the
translation (line 112 only adds the broadcast translation row). -/
theorem computeVerts_length_trans (m : Model) (g0 : ℕ → HMat) (pose : NDArr)
    (beta t1 t2 : List ℝ) :
    (computeVerts m g0 pose beta t1).length =
      (computeVerts m g0 pose beta t2).length := by
  unfold computeVerts
  rw [List.length_zipWith, List.length_zipWith]

/-- Pointwise, changing only the translation shifts every output vertex by
exactly the difference of the translations. -/
theorem computeVerts_sub_trans (m : Model) (g0 : ℕ → HMat) (pose : NDArr)
    (beta t1 t2 : List ℝ) (i : ℕ)
    (hi : i < (computeVerts m g0 pose beta t1).length) (l : Fin 3) :
    (computeVerts m g0 pose beta t2).getD i 0 l -
      (computeVerts m g0 pose beta t1).getD i 0 l =
      transVec t2 l - transVec t1 l := by
  have hi2 : i < (computeVerts m g0 pose beta t2).length := by
    rwa [computeVerts_length_trans m g0 pose beta t1 t2] at hi
  rw [List.getD_eq_getElem _ _ hi, List.getD_eq_getElem _ _ hi2]
  unfold computeVerts at hi hi2 ⊢
  rw [List.getElem_zipWith, List.getElem_zipWith]
  simp only [Pi.add_apply]
  ring

/-- C4.  Translation linearity: for a fixed model, pose, and shape, two
successful `set_params` calls differing only in the translation return
buffers whose difference is exactly the difference of the translations,
uniformly at every vertex and coordinate. -/
theorem C4_translation_linearity (m : Model) (g0 : ℕ → HMat) (s : State)
    (pose : NDArr) (beta t1 t2 : List ℝ) (v1 v2 : List Vec3)
    (h1 : (set_params m g0 s (some pose) (some beta) (some t1)).2 = .ok v1)
    (h2 : (set_params m g0 s (some pose) (some beta) (some t2)).2 = .ok v2) :
    v1.length = v2.length ∧
    ∀ i, i < v1.length → ∀ l : Fin 3,
      v2.getD i 0 l - v1.getD i 0 l = transVec t2 l - transVec t1 l := by
  have hr1 := set_params_res m g0 s (some pose) (some beta) (some t1)
  have hr2 := set_params_res m g0 s (some pose) (some beta) (some t2)
  rw [h1] at hr1
  rw [h2] at hr2
  simp only [Option.getD_some] at hr1 hr2
  by_cases hc1 : updChecks m pose beta t1
  · by_cases hc2 : updChecks m pose beta t2
    · rw [if_pos hc1] at hr1
      rw [if_pos hc2] at hr2
      have hv1 : v1 = computeVerts m g0 pose beta t1 := by
        simpa using hr1
      have hv2 : v2 = computeVerts m g0 pose beta t2 := by
        simpa using hr2
      subst hv1; subst hv2
      exact ⟨computeVerts_length_trans m g0 pose beta t1 t2,
        fun i hi l => computeVerts_sub_trans m g0 pose beta t1 t2 i hi l⟩
    · rw [if_neg hc2] at hr2
      exact Except.noConfusion hr2
  · rw [if_neg hc1] at hr1
    exact Except.noConfusion hr1

/-- A nonzero translation used by the C4 witness. -/
def t123 : List ℝ := [1, 2, 3]

set_option maxRecDepth 10000 in
/-- Witness for C4: the linearity applied to two concrete successful calls
on the rig `M0`, with translations `(0,0,0)` and `(1,2,3)`. -/
theorem C4_witness :
    (computeVerts M0 g0def s00.pose s00.beta s00.trans).length =
      (computeVerts M0 g0def s00.pose s00.beta t123).length ∧
    ∀ i, i < (computeVerts M0 g0def s00.pose s00.beta s00.trans).length →
      ∀ l : Fin 3,
        (computeVerts M0 g0def s00.pose s00.beta t123).getD i 0 l -
          (computeVerts M0 g0def s00.pose s00.beta s00.trans).getD i 0 l =
        transVec t123 l - transVec s00.trans l :=
  C4_translation_linearity M0 g0def s00 s00.pose s00.beta s00.trans t123
    (computeVerts M0 g0def s00.pose s00.beta s00.trans)
    (computeVerts M0 g0def s00.pose s00.beta t123) rfl rfl

/-- Skew-symmetric cross-product matrix `[v]×`, as worded by the spec. -/
def crossMat (v : Vec3) : Mat3 :=
  Matrix.of ![![0, -v 2, v 1], ![v 2, 0, -v 0], ![-v 1, v 0, 0]]

/-- Rodrigues' formula exactly as the specification words it:
`R = cos θ · I + (1 − cos θ) · (r̂ r̂ᵀ) + sin θ · [r̂]×` with
`θ = max(‖r‖, machine epsilon)` and `r̂ = r / θ` (outer product expressed
with `Matrix.vecMulVec`, the Euclidean norm as a `Fin 3` sum). -/
def rodriguesSpec (r : Vec3) : Mat3 :=
  let theta : ℝ := max (Real.sqrt (∑ j : Fin 3, r j ^ 2)) eps64
  let rh : Vec3 := fun j => r j / theta
  Real.cos theta • (1 : Mat3) + (1 - Real.cos theta) • Matrix.vecMulVec rh rh +
    Real.sin theta • crossMat rh

theorem colv_mul_rowv (v w : Vec3) : colv v * rowv w = Matrix.vecMulVec v w := by
  ext i j
  simp [Matrix.mul_apply, colv, rowv, Matrix.vecMulVec_apply]

/-- C6.  The batched `rodrigues` of the code computes, for every axis-angle
row, exactly the spec's formula `cos θ · I + (1 − cos θ) · r̂ r̂ᵀ +
sin θ · [r̂]×` with `θ = max(‖r‖, float64 machine epsilon)`; the zero
vector is covered by the clamp (the function is total — no exception
path exists). -/
theorem C6_rodrigues_matches_formula (rs : List Vec3) :
    rodrigues rs = rs.map rodriguesSpec := by
  unfold rodrigues
  refine List.map_congr_left fun r _ => ?_
  simp only [rodrigues1, rodriguesSpec, crossMat]
  rw [Fin.sum_univ_three, colv_mul_rowv]

/-- Round a rational to an integer count of `10⁻⁶` units, half to even
(the rounding printf `%f` applies to the exact value of a float64). -/
def round6 (q : ℚ) : ℤ :=
  let num := q.num * 1000000
  let d : ℤ := (q.den : ℤ)
  let n := num.ediv d
  let r := num.emod d
  if 2 * r < d then n else if d < 2 * r then n + 1 else if n % 2 = 0 then n
  else n + 1

/-- Left-pad a natural number with zeros to six digits. -/
def pad6 (n : ℕ) : String :=
  let s := toString n
  String.mk (List.replicate (6 - s.length) '0') ++ s

/-- Rendering of printf `%f` (six fixed decimals) on an exact rational
value: float64 values are exact rationals, so this models the formatting
the exporter applies to each coordinate. -/
def fmtFixed6 (q : ℚ) : String :=
  let n := round6 q
  let sign := if n < 0 then "-" else ""
  let a := n.natAbs
  sign ++ toString (a / 1000000) ++ "." ++ pad6 (a % 1000000)

/-- One `'v %f %f %f\n'` line of `save_to_obj` (line 180). -/
def vertLine (v : ℚ × ℚ × ℚ) : String :=
  "v " ++ fmtFixed6 v.1 ++ " " ++ fmtFixed6 v.2.1 ++ " " ++ fmtFixed6 v.2.2
    ++ "\n"

/-- One `'f %d %d %d\n'` line of `save_to_obj` (lines 181–182): the face
indices are shifted by the `self.faces + 1` broadcast before formatting. -/
def faceLine (f : ℤ × ℤ × ℤ) : String :=
  "f " ++ toString (f.1 + 1) ++ " " ++ toString (f.2.1 + 1) ++ " " ++
    toString (f.2.2 + 1) ++ "\n"

/-- Translation of `SMPLModel.save_to_obj` (lines 171–182) as the text it
writes: starting from an empty file, one formatted line is appended per
vertex, then one per (one-based) face.  The float64 vertex buffer is taken
as exact rationals. -/
def save_to_obj (verts : List (ℚ × ℚ × ℚ)) (faces : List (ℤ × ℤ × ℤ)) :
    String :=
  faces.foldl (fun acc f => acc ++ faceLine f)
    (verts.foldl (fun acc v => acc ++ vertLine v) "")

/-- Concatenation of a list of lines. -/
def concatLines (l : List String) : String := l.foldr (· ++ ·) ""

theorem foldl_append_lines {α : Type _} (g : α → String) (l : List α)
    (acc : String) :
    l.foldl (fun a x => a ++ g x) acc = acc ++ concatLines (l.map g) := by
  induction l generalizing acc with
  | nil => simp [concatLines]
  | cons x t ih =>
    rw [List.map_cons, List.foldl_cons, ih]
    simp only [concatLines, List.foldr_cons]
    rw [String.append_assoc]

/-- C8.  The exporter writes exactly one `v %f %f %f` line per vertex
followed by one `f %d %d %d` line per face with all indices shifted to
one-based; in particular the single vertex `(1, 2, 3)` with the single
face `(0, 1, 2)` produces exactly the claimed text. -/
theorem C8_export_format :
    (∀ (vs : List (ℚ × ℚ × ℚ)) (fs : List (ℤ × ℤ × ℤ)),
      save_to_obj vs fs =
        concatLines (vs.map vertLine) ++ concatLines (fs.map faceLine)) ∧
    save_to_obj [(1, 2, 3)] [(0, 1, 2)] =
      "v 1.000000 2.000000 3.000000\nf 1 2 3\n" := by
  constructor
  · intro vs fs
    unfold save_to_obj
    rw [foldl_append_lines, foldl_append_lines]
    simp
  · decide

/-- The K = 2 rig of the claim's end-to-end scenario: two joints with
`parent = {1 → 0}`, identity joint regressor and skinning weights, template
vertices at the joints, and zero blend bases (9 pose coefficients for the
single non-root joint). -/
def M2 : Model where
  J_regressor := [[1, 0], [0, 1]]
  weights := [[1, 0], [0, 1]]
  posedirs := [fun _ => List.replicate 9 0, fun _ => List.replicate 9 0]
  v_template := [![0, 0, 0], ![0, 1, 0]]
  shapedirs := [fun _ => List.replicate 10 0, fun _ => List.replicate 10 0]
  K := 2
  parent := fun _ => 0
  faces := []

/-- The scenario pose: zero rotation at the root, `π/2` about Z at the
child. -/
def poseC3 : NDArr := ⟨[2, 3], [0, 0, 0, 0, 0, Real.pi / 2]⟩

/-- Zero shape coefficients. -/
def beta0 : List ℝ := List.replicate 10 0

/-- Zero translation. -/
def trans0 : List ℝ := List.replicate 3 0

/-- A zero starting state for the K = 2 rig. -/
def s20 : State :=
  ⟨⟨[2, 3], List.replicate 6 0⟩, beta0, trans0, none, none, none⟩

/-- Counterexample to C3 as stated: on the claim's K = 2 rig the update
computation produces no vertex buffer at all — `update` hard-codes the
24-joint rig at the rest-pose-correction step (`np.zeros([24, 1])` and
`.reshape([24, 4, 1])` on line 105), so the `np.hstack` fails for a 2-row
`J` — hence vertex 1 is not produced at `(−1, 1, 0)` or anywhere else. -/
theorem C3_counterexample :
    ¬∃ vs, (set_params M2 g0def s20 (some poseC3) (some beta0)
      (some trans0)).2 = .ok vs := by
  rintro ⟨vs, hvs⟩
  rw [set_params_res] at hvs
  simp only [Option.getD_some] at hvs
  rw [if_neg (by decide)] at hvs
  exact Except.noConfusion hvs

/-- C3 (amended).  The end-to-end K = 2 scenario does not produce
vertices: the rest-pose correction hard-codes a 24-row stack
(`np.hstack([self.J, np.zeros([24, 1])])` at line 105 demands a 24-row
`J`, with no broadcasting in the concatenation), so on the claim's
2-joint rig with pose `[(0,0,0), (0,0,π/2)]`, zero shape and zero
translation, `set_params` raises the shape-mismatch error instead of
placing vertex 0 and vertex 1 anywhere. -/
theorem C3_k2_rig_shape_mismatch :
    (set_params M2 g0def s20 (some poseC3) (some beta0) (some trans0)).2 =
      .error .shapeMismatch := by
  rw [set_params_res]
  simp only [Option.getD_some]
  rw [if_neg (by decide)]

/-- Sum of the absolute values of a list of scalars. -/
def sumAbs (l : List ℝ) : ℝ := (l.map (fun x => |x|)).sum

theorem sumAbs_nonneg (l : List ℝ) : 0 ≤ sumAbs l := by
  induction l with
  | nil => simp [sumAbs]
  | cons x t ih =>
    unfold sumAbs at ih ⊢
    simp only [List.map_cons, List.sum_cons]
    have := abs_nonneg x
    linarith

theorem sumAbs_cons (x : ℝ) (l : List ℝ) : sumAbs (x :: l) = |x| + sumAbs l := by
  simp [sumAbs]

/-- Total absolute mass of one `(3, P)` blend-basis row. -/
def rowAbs (row : Fin 3 → List ℝ) : ℝ := sumAbs (row 0) + sumAbs (row 1) + sumAbs (row 2)

theorem rowAbs_nonneg (row : Fin 3 → List ℝ) : 0 ≤ rowAbs row := by
  unfold rowAbs
  have h0 := sumAbs_nonneg (row 0)
  have h1 := sumAbs_nonneg (row 1)
  have h2 := sumAbs_nonneg (row 2)
  linarith

/-- Absolute mass of the pose blend basis. -/
def pdA (m : Model) : ℝ := (m.posedirs.map rowAbs).sum

/-- Absolute mass of the template mesh. -/
def vtM (m : Model) : ℝ := (m.v_template.map (fun v => |v 0| + |v 1| + |v 2|)).sum

/-- Absolute mass of the joint regressor. -/
def jrA (m : Model) : ℝ := (m.J_regressor.map sumAbs).sum

/-- A bound on every coordinate of every rest joint. -/
def MJ (m : Model) : ℝ := jrA m * vtM m

/-- The model-dependent constant of the rest-pose tolerance bound: the
deviation of the rest output from the template is at most
`tolC m * (1 - cos eps64)` coordinatewise. -/
def tolC (m : Model) : ℝ :=
  pdA m + (m.K : ℝ) * (vtM m + pdA m + MJ m) + 2 * MJ m * (m.K : ℝ) ^ 2

theorem mem_le_mapSum {α : Type _} (g : α → ℝ) (hg : ∀ x, 0 ≤ g x)
    (l : List α) (a : α) (ha : a ∈ l) : g a ≤ (l.map g).sum := by
  induction l with
  | nil => cases ha
  | cons x t ih =>
    simp only [List.map_cons, List.sum_cons]
    rcases List.mem_cons.1 ha with rfl | hmem
    · have : 0 ≤ (t.map g).sum := by
        apply List.sum_nonneg
        intro y hy
        obtain ⟨z, _, rfl⟩ := List.mem_map.1 hy
        exact hg z
      linarith
    · have := ih hmem
      have := hg x
      linarith

theorem mapSum_nonneg {α : Type _} (g : α → ℝ) (hg : ∀ x, 0 ≤ g x)
    (l : List α) : 0 ≤ (l.map g).sum := by
  apply List.sum_nonneg
  intro y hy
  obtain ⟨z, _, rfl⟩ := List.mem_map.1 hy
  exact hg z

theorem pdA_nonneg (m : Model) : 0 ≤ pdA m :=
  mapSum_nonneg rowAbs rowAbs_nonneg m.posedirs

theorem vtM_nonneg (m : Model) : 0 ≤ vtM m := by
  apply mapSum_nonneg
  intro v
  have := abs_nonneg (v 0)
  have := abs_nonneg (v 1)
  have := abs_nonneg (v 2)
  linarith

theorem jrA_nonneg (m : Model) : 0 ≤ jrA m :=
  mapSum_nonneg sumAbs sumAbs_nonneg m.J_regressor

theorem MJ_nonneg (m : Model) : 0 ≤ MJ m :=
  mul_nonneg (jrA_nonneg m) (vtM_nonneg m)

/-- A dot product against zero coefficients vanishes. -/
theorem dotList_replicate_zero (a : List ℝ) (n : ℕ) :
    dotList a (List.replicate n 0) = 0 := by
  induction a generalizing n with
  | nil => simp [dotList]
  | cons x t ih =>
    cases n with
    | zero => simp [dotList]
    | succ n' =>
      simp only [dotList, List.replicate_succ, List.zipWith_cons_cons,
        List.sum_cons, mul_zero, zero_add]
      exact ih n'

/-- A dot product against uniformly small coefficients is bounded by the
absolute row mass. -/
theorem abs_dotList_le (a b : List ℝ) (e : ℝ) (hb : ∀ x ∈ b, |x| ≤ e)
    (he : 0 ≤ e) : |dotList a b| ≤ e * sumAbs a := by
  induction a generalizing b with
  | nil => simp [dotList, sumAbs]
  | cons x t ih =>
    cases b with
    | nil =>
      simp only [dotList, List.zipWith_nil_right, List.sum_nil, abs_zero]
      exact mul_nonneg he (sumAbs_nonneg (x :: t))
    | cons y b' =>
      simp only [dotList, List.zipWith_cons_cons, List.sum_cons]
      have h1 : |x * y + (List.zipWith (· * ·) t b').sum| ≤
          |x * y| + |(List.zipWith (· * ·) t b').sum| := abs_add _ _
      have h2 : |x * y| ≤ |x| * e := by
        rw [abs_mul]
        exact mul_le_mul_of_nonneg_left (hb y (List.mem_cons_self y b'))
          (abs_nonneg x)
      have h3 : |(List.zipWith (· * ·) t b').sum| ≤ e * sumAbs t :=
        ih b' (fun z hz => hb z (List.mem_cons_of_mem y hz))
      rw [sumAbs_cons]
      calc |x * y + (List.zipWith (· * ·) t b').sum| ≤
          |x| * e + e * sumAbs t := by linarith
        _ = e * (|x| + sumAbs t) := by ring

/-- `pose.reshape((-1, 1, 3))` of an all-zero array: `n` zero rows. -/
theorem chunk3_replicate_zero (n : ℕ) :
    chunk3 (List.replicate (3 * n) (0 : ℝ)) = List.replicate n ![0, 0, 0] := by
  induction n with
  | zero => rfl
  | succ n' ih =>
    have h3 : 3 * (n' + 1) = (3 * n') + 1 + 1 + 1 := by ring
    rw [h3, List.replicate_succ, List.replicate_succ, List.replicate_succ,
      chunk3, ih, List.replicate_succ]

/-- Rodrigues' formula at the zero axis-angle vector: the clamp gives
`theta = eps64`, `r̂ = 0`, and the result is `cos eps64 · I`. -/
theorem rodrigues1_zero :
    rodrigues1 ![0, 0, 0] = Real.cos eps64 • (1 : Mat3) := by
  have heps : (0 : ℝ) ≤ eps64 := by unfold eps64; positivity
  have htheta : max (Real.sqrt ((0 : ℝ) ^ 2 + 0 ^ 2 + 0 ^ 2)) eps64 = eps64 := by
    rw [show (0 : ℝ) ^ 2 + 0 ^ 2 + 0 ^ 2 = 0 by ring, Real.sqrt_zero]
    exact max_eq_right heps
  unfold rodrigues1
  simp only [Matrix.cons_val_zero, Matrix.cons_val_one, Matrix.head_cons,
    Matrix.cons_val_two, Matrix.tail_cons, htheta, zero_div, neg_zero]
  have hrh : (fun j => (![0, 0, 0] : Vec3) j / eps64) =
      (fun _ : Fin 3 => (0 : ℝ)) := by
    funext j
    fin_cases j <;> simp
  have hcol : colv (fun _ : Fin 3 => (0 : ℝ)) * rowv (fun _ : Fin 3 => (0 : ℝ)) =
      (0 : Mat3) := by
    ext i j
    simp [colv, rowv, Matrix.mul_apply]
  rw [hrh, hcol]
  simp
  ext i j
  fin_cases i <;> fin_cases j <;> rfl

theorem mul_colv (A : Mat3) (b : Vec3) : A * colv b = colv (A.mulVec b) := by
  ext i k
  simp [colv, Matrix.mul_apply, Matrix.mulVec, Matrix.dotProduct,
    Fin.sum_univ_three]

theorem colv_add (a b : Vec3) : colv a + colv b = colv (a + b) := by
  ext i k
  simp [colv]

/-- Product of two homogeneous transforms in the 3 ⊕ 1 block form. -/
theorem with_zeros_mul (A B : Mat3) (a b : Vec3) :
    with_zeros A a * with_zeros B b = with_zeros (A * B) (A.mulVec b + a) := by
  unfold with_zeros
  rw [Matrix.fromBlocks_multiply]
  simp [mul_colv, colv_add]

/-- Applying a homogeneous transform to a homogeneous point. -/
theorem applyT_with_zeros (A : Mat3) (a p : Vec3) (l : Fin 3) :
    applyT (with_zeros A a) p l = A.mulVec p l + a l := by
  unfold applyT with_zeros
  rw [Matrix.fromBlocks_mulVec]
  simp [colv, Matrix.mulVec, Matrix.dotProduct, Fin.sum_univ_one]

theorem with_zeros_mulVec_dir (A : Mat3) (a J : Vec3) :
    (with_zeros A a).mulVec (Sum.elim J fun _ => 0) =
      Sum.elim (A.mulVec J) (fun _ => 0) := by
  unfold with_zeros
  rw [Matrix.fromBlocks_mulVec]
  funext x
  rcases x with i | i <;> simp [Matrix.mulVec, Matrix.dotProduct]

/-- The rest-pose correction of lines 102–107 on one homogeneous joint
transform: only the translation column changes. -/
theorem gPrime_entry_eq (A : Mat3) (a J : Vec3) :
    with_zeros A a - packCol ((with_zeros A a).mulVec (Sum.elim J fun _ => 0)) =
      with_zeros A (a - A.mulVec J) := by
  rw [with_zeros_mulVec_dir]
  unfold with_zeros packCol
  ext i j
  rcases i with i | i <;> rcases j with j | j <;>
    simp [Matrix.fromBlocks, colv, Matrix.sub_apply]

theorem smul_one_mul_smul_one (x y : ℝ) :
    (x • (1 : Mat3)) * (y • 1) = (x * y) • 1 := by
  rw [Matrix.smul_mul, Matrix.mul_smul, one_mul, smul_smul]

theorem smul_one_mulVec (x : ℝ) (v : Vec3) :
    (x • (1 : Mat3)).mulVec v = x • v := by
  rw [Matrix.smul_mulVec_assoc, Matrix.one_mulVec]

/-- Line 109 then line 111, scalarised: applying the weight-blended
transform is the weighted sum of the individual applications. -/
theorem applyT_blend (row : List ℝ) (Gs : List HMat) (p : Vec3) (l : Fin 3) :
    applyT (blendT row Gs) p l =
      (List.zipWith (fun w G => w * applyT G p l) row Gs).sum := by
  induction row generalizing Gs with
  | nil =>
    simp [blendT, applyT, Matrix.zero_mulVec]
  | cons w ws ih =>
    cases Gs with
    | nil => simp [blendT, applyT, Matrix.zero_mulVec]
    | cons G Gs' =>
      simp only [blendT, List.zipWith_cons_cons, List.sum_cons]
      unfold applyT
      rw [Matrix.add_mulVec, Pi.add_apply, Matrix.smul_mulVec_assoc,
        Pi.smul_apply, smul_eq_mul]
      congr 1
      exact ih Gs'

theorem getD_replicate_lt {α : Type _} (n i : ℕ) (a d : α) (h : i < n) :
    (List.replicate n a).getD i d = a := by
  rw [List.getD_eq_getElem _ _ (by simpa using h), List.getElem_replicate]

theorem cos_eps_nonneg : 0 ≤ Real.cos eps64 := by
  apply Real.cos_nonneg_of_mem_Icc
  constructor
  · have h := Real.pi_gt_three
    have h2 : (0 : ℝ) < 1 / 2 ^ 52 := by positivity
    unfold eps64
    nlinarith
  · have h := Real.pi_gt_three
    have h2 : (1 : ℝ) / 2 ^ 52 ≤ 1 := by norm_num
    unfold eps64
    nlinarith

theorem cos_eps_le_one : Real.cos eps64 ≤ 1 := Real.cos_le_one eps64

theorem one_sub_pow_le (c : ℝ) (h0 : 0 ≤ c) (h1 : c ≤ 1) (k : ℕ) :
    1 - c ^ k ≤ (k : ℝ) * (1 - c) := by
  induction k with
  | zero => simp
  | succ k' ih =>
    have hck : c ^ k' ≤ 1 := pow_le_one₀ h0 h1
    have hck0 : 0 ≤ c ^ k' := pow_nonneg h0 k'
    rw [pow_succ]
    push_cast
    nlinarith

/-- At rest (all rotations equal to `cos eps64 · I`), every chained joint
transform is `cos eps64 ^ k · I` with a translation column that stays
within `(1 - cos eps64) · 2 B i²` of the rest joint, where `B` bounds the
joint coordinates. -/
theorem Gchain_rest (p : ℕ → ℕ) (J : List Vec3) (B : ℝ) (hB : 0 ≤ B)
    (hJ : ∀ j (l : Fin 3), |(J.getD j 0) l| ≤ B)
    (K : ℕ) (hdec : ∀ i, i < K → 1 ≤ i → p i < i) (loc : ℕ → HMat)
    (hloc0 : loc 0 = with_zeros (Real.cos eps64 • 1) (J.getD 0 0))
    (hloci : ∀ i, 1 ≤ i → i < K →
      loc i = with_zeros (Real.cos eps64 • 1) (J.getD i 0 - J.getD (p i) 0)) :
    ∀ i, i < K → ∃ (k : ℕ) (τ : Vec3),
      Gchain p loc i = with_zeros (Real.cos eps64 ^ k • 1) τ ∧
      1 ≤ k ∧ k ≤ i + 1 ∧
      ∀ l, |τ l - J.getD i 0 l| ≤
        (1 - Real.cos eps64) * (2 * B * (i : ℝ) ^ 2) := by
  intro i
  induction i using Nat.strong_induction_on with
  | _ i IH =>
    intro hiK
    rcases Nat.eq_zero_or_pos i with rfl | hi1
    · refine ⟨1, J.getD 0 0, ?_, le_rfl, le_rfl, ?_⟩
      · rw [Gchain_zero, hloc0, pow_one]
      · intro l
        simp
    · obtain ⟨i', rfl⟩ : ∃ i', i = i' + 1 := ⟨i - 1, by omega⟩
      have hpi : p (i' + 1) < i' + 1 := hdec (i' + 1) hiK (by omega)
      obtain ⟨k', τ', hG', hk1', hk2', hτ'⟩ :=
        IH (p (i' + 1)) hpi (lt_trans hpi hiK)
      set c := Real.cos eps64 with hc
      have hc0 : 0 ≤ c := cos_eps_nonneg
      have hc1 : c ≤ 1 := cos_eps_le_one
      refine ⟨k' + 1,
        c ^ k' • (J.getD (i' + 1) 0 - J.getD (p (i' + 1)) 0) + τ', ?_, by omega,
        by omega, ?_⟩
      · rw [Gchain_succ p loc i' hpi, hG', hloci (i' + 1) (by omega) hiK,
          with_zeros_mul, smul_one_mul_smul_one, smul_one_mulVec, ← pow_succ]
      · intro l
        have hJi := hJ (i' + 1) l
        have hJp := hJ (p (i' + 1)) l
        have hτl := hτ' l
        have hpow : 1 - c ^ k' ≤ (k' : ℝ) * (1 - c) :=
          one_sub_pow_le c hc0 hc1 k'
        have hpow1 : c ^ k' ≤ 1 := pow_le_one₀ hc0 hc1
        have hval : (c ^ k' • (J.getD (i' + 1) 0 - J.getD (p (i' + 1)) 0) +
            τ') l - J.getD (i' + 1) 0 l =
            (c ^ k' - 1) * (J.getD (i' + 1) 0 l - J.getD (p (i' + 1)) 0 l) +
              (τ' l - J.getD (p (i' + 1)) 0 l) := by
          simp only [Pi.add_apply, Pi.smul_apply, Pi.sub_apply, smul_eq_mul]
          ring
        rw [hval]
        have habs : |(c ^ k' - 1) *
            (J.getD (i' + 1) 0 l - J.getD (p (i' + 1)) 0 l) +
            (τ' l - J.getD (p (i' + 1)) 0 l)| ≤
            |c ^ k' - 1| * |J.getD (i' + 1) 0 l - J.getD (p (i' + 1)) 0 l| +
              |τ' l - J.getD (p (i' + 1)) 0 l| := by
          calc |(c ^ k' - 1) * (J.getD (i' + 1) 0 l - J.getD (p (i' + 1)) 0 l) +
              (τ' l - J.getD (p (i' + 1)) 0 l)| ≤
              |(c ^ k' - 1) * (J.getD (i' + 1) 0 l - J.getD (p (i' + 1)) 0 l)| +
                |τ' l - J.getD (p (i' + 1)) 0 l| := abs_add _ _
            _ = |c ^ k' - 1| * |J.getD (i' + 1) 0 l - J.getD (p (i' + 1)) 0 l| +
                |τ' l - J.getD (p (i' + 1)) 0 l| := by rw [abs_mul]
        have hck1 : |c ^ k' - 1| ≤ (k' : ℝ) * (1 - c) := by
          rw [abs_sub_comm, abs_of_nonneg (by linarith)]
          exact hpow
        have hJd : |J.getD (i' + 1) 0 l - J.getD (p (i' + 1)) 0 l| ≤ 2 * B := by
          calc |J.getD (i' + 1) 0 l - J.getD (p (i' + 1)) 0 l| ≤
              |J.getD (i' + 1) 0 l| + |J.getD (p (i' + 1)) 0 l| := abs_sub _ _
            _ ≤ 2 * B := by linarith
        have hkb : (k' : ℝ) ≤ (p (i' + 1) : ℝ) + 1 := by
          exact_mod_cast hk2'
        have hpb : (p (i' + 1) : ℝ) ≤ (i' : ℝ) := by
          have : p (i' + 1) ≤ i' := by omega
          exact_mod_cast this
        have h1c : 0 ≤ 1 - c := by linarith
        have hppos : (0 : ℝ) ≤ (p (i' + 1) : ℝ) := Nat.cast_nonneg _
        have hipos : (0 : ℝ) ≤ (i' : ℝ) := Nat.cast_nonneg _
        have hkpos : (0 : ℝ) ≤ (k' : ℝ) := Nat.cast_nonneg _
        calc |(c ^ k' - 1) * (J.getD (i' + 1) 0 l - J.getD (p (i' + 1)) 0 l) +
            (τ' l - J.getD (p (i' + 1)) 0 l)| ≤
            |c ^ k' - 1| * |J.getD (i' + 1) 0 l - J.getD (p (i' + 1)) 0 l| +
              |τ' l - J.getD (p (i' + 1)) 0 l| := habs
          _ ≤ ((k' : ℝ) * (1 - c)) * (2 * B) +
              (1 - c) * (2 * B * (p (i' + 1) : ℝ) ^ 2) := by
            have hmul : |c ^ k' - 1| *
                |J.getD (i' + 1) 0 l - J.getD (p (i' + 1)) 0 l| ≤
                ((k' : ℝ) * (1 - c)) * (2 * B) :=
              mul_le_mul hck1 hJd (abs_nonneg _) (mul_nonneg hkpos h1c)
            linarith
          _ ≤ (1 - c) * (2 * B * ((i' : ℝ) + 1) ^ 2) := by
            have hp2 : (p (i' + 1) : ℝ) ^ 2 ≤ (i' : ℝ) ^ 2 := by nlinarith
            have hsum : (k' : ℝ) + (p (i' + 1) : ℝ) ^ 2 ≤ ((i' : ℝ) + 1) ^ 2 := by
              nlinarith
            have hfac : 0 ≤ (1 - c) * (2 * B) := by
              apply mul_nonneg h1c
              linarith
            nlinarith [mul_le_mul_of_nonneg_left hsum hfac]
          _ = (1 - c) * (2 * B * ((i' + 1 : ℕ) : ℝ) ^ 2) := by push_cast; ring

/-- With zero shape coefficients the shape blend vanishes and `v_shaped`
is the template itself. -/
theorem vShaped_zero (m : Model) (h : m.shapedirs.length = m.v_template.length)
    (n : ℕ) : vShaped m (List.replicate n 0) = m.v_template := by
  apply List.ext_getElem
  · simp [vShaped, sdirsDot, h]
  · intro i h1 h2
    funext l
    simp only [vShaped, sdirsDot, List.getElem_zipWith, List.getElem_map,
      Pi.add_apply]
    rw [dotList_replicate_zero, zero_add]

/-- An all-zero pose turns into 24 copies of the clamped rotation
`cos eps64 · I`. -/
theorem poseR_rest (pose0 : NDArr) (hp : pose0.data = List.replicate 72 0) :
    poseR pose0 = List.replicate 24 (Real.cos eps64 • (1 : Mat3)) := by
  unfold poseR
  rw [hp, show (72 : ℕ) = 3 * 24 from rfl, chunk3_replicate_zero]
  unfold rodrigues
  rw [List.map_replicate, rodrigues1_zero]

/-- Every entry of `lrotmin` at rest is within `1 - cos eps64` of zero. -/
theorem lrotmin_rest_bound (pose0 : NDArr)
    (hp : pose0.data = List.replicate 72 0) :
    ∀ x ∈ lrotmin (poseR pose0), |x| ≤ 1 - Real.cos eps64 := by
  rw [poseR_rest pose0 hp]
  intro x hx
  unfold lrotmin at hx
  rw [List.drop_replicate, List.map_replicate] at hx
  obtain ⟨l', hl', hxl⟩ := List.mem_flatten.1 hx
  rw [(List.mem_replicate.1 hl').2] at hxl
  have hc1 := cos_eps_le_one
  simp only [flat9, Matrix.sub_apply, Matrix.smul_apply, Matrix.one_apply,
    List.mem_cons, List.not_mem_nil, or_false] at hxl
  have habs0 : |(0 : ℝ)| ≤ 1 - Real.cos eps64 := by
    rw [abs_zero]; linarith
  have habsc : |Real.cos eps64 - 1| ≤ 1 - Real.cos eps64 := by
    rw [abs_sub_comm, abs_of_nonneg (by linarith)]
  rcases hxl with rfl | rfl | rfl | rfl | rfl | rfl | rfl | rfl | rfl <;>
    simp_all

/-- Coordinatewise bound on a template vertex by the template's absolute
mass. -/
theorem vt_coord_le (m : Model) (v : Vec3) (hv : v ∈ m.v_template)
    (l : Fin 3) : |v l| ≤ vtM m := by
  have hm : |v 0| + |v 1| + |v 2| ≤ vtM m :=
    mem_le_mapSum (fun v : Vec3 => |v 0| + |v 1| + |v 2|)
      (fun v => by positivity) m.v_template v hv
  have h0 := abs_nonneg (v 0)
  have h1 := abs_nonneg (v 1)
  have h2 := abs_nonneg (v 2)
  fin_cases l
  · show |v 0| ≤ vtM m
    linarith
  · show |v 1| ≤ vtM m
    linarith
  · show |v 2| ≤ vtM m
    linarith

/-- Coordinatewise bound on a weighted sum of vertices. -/
theorem abs_wsum_le (r : List ℝ) (vs : List Vec3) (Bv : ℝ) (hBv : 0 ≤ Bv)
    (hvs : ∀ v ∈ vs, ∀ l : Fin 3, |v l| ≤ Bv) (l : Fin 3) :
    |wsum r vs l| ≤ sumAbs r * Bv := by
  induction r generalizing vs with
  | nil => simp [wsum, sumAbs]
  | cons x t ih =>
    cases vs with
    | nil =>
      simp only [wsum, List.zipWith_nil_right, List.sum_nil, Pi.zero_apply,
        abs_zero]
      exact mul_nonneg (sumAbs_nonneg (x :: t)) hBv
    | cons v vs' =>
      have hstep : wsum (x :: t) (v :: vs') l = x * v l + wsum t vs' l := by
        simp [wsum, List.zipWith_cons_cons, List.sum_cons]
      rw [hstep, sumAbs_cons]
      have h1 : |x * v l + wsum t vs' l| ≤ |x * v l| + |wsum t vs' l| :=
        abs_add _ _
      have h2 : |x * v l| ≤ |x| * Bv := by
        rw [abs_mul]
        exact mul_le_mul_of_nonneg_left (hvs v (List.mem_cons_self v vs') l)
          (abs_nonneg x)
      have h3 : |wsum t vs' l| ≤ sumAbs t * Bv :=
        ih vs' (fun w hw l' => hvs w (List.mem_cons_of_mem v hw) l')
      calc |wsum (x :: t) (v :: vs') l|
          ≤ |x| * Bv + sumAbs t * Bv := by rw [hstep]; linarith
        _ = (|x| + sumAbs t) * Bv := by ring

/-- Every coordinate of every rest joint is bounded by `MJ`. -/
theorem restJ_bound (m : Model)
    (h2 : m.shapedirs.length = m.v_template.length) (j : ℕ) (l : Fin 3) :
    |(restJ m (List.replicate 10 0)).getD j 0 l| ≤ MJ m := by
  unfold restJ
  rw [vShaped_zero m h2]
  by_cases hj : j < m.J_regressor.length
  · rw [List.getD_eq_getElem _ _ (by simpa using hj), List.getElem_map]
    calc |wsum m.J_regressor[j] m.v_template l|
        ≤ sumAbs m.J_regressor[j] * vtM m :=
          abs_wsum_le _ _ _ (vtM_nonneg m)
            (fun v hv l' => vt_coord_le m v hv l') l
      _ ≤ jrA m * vtM m := by
          apply mul_le_mul_of_nonneg_right _ (vtM_nonneg m)
          exact mem_le_mapSum sumAbs sumAbs_nonneg m.J_regressor _
            (List.getElem_mem hj)
  · rw [List.getD_eq_default _ _ (by simpa using Nat.le_of_not_lt hj)]
    rw [show ((0 : Vec3) l) = (0 : ℝ) from rfl, abs_zero]
    exact MJ_nonneg m

/-- Coordinatewise bound on the rest pose-blend displacement. -/
theorem pd_coord_le (m : Model) (lrot : List ℝ)
    (hlrot : ∀ x ∈ lrot, |x| ≤ 1 - Real.cos eps64) (i : ℕ)
    (hi : i < m.posedirs.length) (l : Fin 3) :
    |(pdirsDot m lrot).getD i 0 l| ≤ (1 - Real.cos eps64) * pdA m := by
  have h1c : (0 : ℝ) ≤ 1 - Real.cos eps64 := by
    have := cos_eps_le_one; linarith
  unfold pdirsDot
  rw [List.getD_eq_getElem _ _ (by simpa using hi), List.getElem_map]
  calc |dotList (m.posedirs[i] l) lrot|
      ≤ (1 - Real.cos eps64) * sumAbs (m.posedirs[i] l) :=
        abs_dotList_le _ _ _ hlrot h1c
    _ ≤ (1 - Real.cos eps64) * pdA m := by
        apply mul_le_mul_of_nonneg_left _ h1c
        have hrow : sumAbs (m.posedirs[i] l) ≤ rowAbs m.posedirs[i] := by
          have hr : rowAbs m.posedirs[i] = sumAbs (m.posedirs[i] 0) +
              sumAbs (m.posedirs[i] 1) + sumAbs (m.posedirs[i] 2) := rfl
          have s0 := sumAbs_nonneg (m.posedirs[i] 0)
          have s1 := sumAbs_nonneg (m.posedirs[i] 1)
          have s2 := sumAbs_nonneg (m.posedirs[i] 2)
          fin_cases l
          · show sumAbs (m.posedirs[i] 0) ≤ rowAbs m.posedirs[i]
            rw [hr]; linarith
          · show sumAbs (m.posedirs[i] 1) ≤ rowAbs m.posedirs[i]
            rw [hr]; linarith
          · show sumAbs (m.posedirs[i] 2) ≤ rowAbs m.posedirs[i]
            rw [hr]; linarith
        calc sumAbs (m.posedirs[i] l) ≤ rowAbs m.posedirs[i] := hrow
          _ ≤ pdA m := mem_le_mapSum rowAbs rowAbs_nonneg m.posedirs _
            (List.getElem_mem hi)

theorem transVec_replicate_zero (l : Fin 3) :
    transVec (List.replicate 3 0) l = 0 := by
  fin_cases l <;> rfl

/-- A convex combination of reals each within `U` of `t` is within `U` of
`t`. -/
theorem weighted_sum_close (f : HMat → ℝ) (t U : ℝ) (row : List ℝ)
    (Gs : List HMat) (hlen : row.length = Gs.length)
    (hnn : ∀ w ∈ row, 0 ≤ w) (hsum : row.sum = 1)
    (hG : ∀ G ∈ Gs, |f G - t| ≤ U) :
    |(List.zipWith (fun w G => w * f G) row Gs).sum - t| ≤ U := by
  have general : ∀ (row : List ℝ) (Gs : List HMat), row.length = Gs.length →
      (∀ w ∈ row, 0 ≤ w) → (∀ G ∈ Gs, |f G - t| ≤ U) →
      |(List.zipWith (fun w G => w * f G) row Gs).sum - row.sum * t| ≤
        row.sum * U := by
    intro row
    induction row with
    | nil =>
      intro Gs _ _ _
      simp
    | cons w ws ih =>
      intro Gs hlen hnn hG
      cases Gs with
      | nil => simp at hlen
      | cons G Gs' =>
        simp only [List.zipWith_cons_cons, List.sum_cons]
        have hw : 0 ≤ w := hnn w (List.mem_cons_self w ws)
        have hfG : |f G - t| ≤ U := hG G (List.mem_cons_self G Gs')
        have hrest := ih Gs' (by simpa using hlen)
          (fun x hx => hnn x (List.mem_cons_of_mem w hx))
          (fun x hx => hG x (List.mem_cons_of_mem G hx))
        have heq : w * f G + (List.zipWith (fun w G => w * f G) ws Gs').sum -
            (w + ws.sum) * t =
            w * (f G - t) +
              ((List.zipWith (fun w G => w * f G) ws Gs').sum - ws.sum * t) := by
          ring
        rw [heq]
        calc |w * (f G - t) +
            ((List.zipWith (fun w G => w * f G) ws Gs').sum - ws.sum * t)|
            ≤ |w * (f G - t)| +
              |(List.zipWith (fun w G => w * f G) ws Gs').sum - ws.sum * t| :=
              abs_add _ _
          _ ≤ w * U + ws.sum * U := by
              have : |w * (f G - t)| = w * |f G - t| := by
                rw [abs_mul, abs_of_nonneg hw]
              rw [this]
              have := mul_le_mul_of_nonneg_left hfG hw
              linarith
          _ = (w + ws.sum) * U := by ring
  have := general row Gs hlen hnn hG
  rw [hsum, one_mul, one_mul] at this
  exact this

theorem tolC_nonneg (m : Model) : 0 ≤ tolC m := by
  unfold tolC
  have := pdA_nonneg m
  have := vtM_nonneg m
  have := MJ_nonneg m
  have hK : (0 : ℝ) ≤ (m.K : ℝ) := Nat.cast_nonneg _
  positivity

/-- C5.  Identity at rest: a successful `set_params` run with an all-zero
pose (72 zero scalars), zero shape, and zero translation returns a buffer
of the template's length in which every coordinate of every vertex agrees
with the template within `tolC m · (1 − cos eps64)` — the deviation caused
solely by the epsilon clamp of the Rodrigues formula, i.e. floating-point
tolerance (`1 − cos eps64 ≤ 2⁻¹⁰⁵`).  Requires the rig's parent order
(`parent i < i`, as in SMPL) and the skinning-weight invariant (rows are
convex combinations). -/
theorem C5_identity_at_rest (m : Model) (g0 : ℕ → HMat) (s : State)
    (pose0 : NDArr) (v : List Vec3)
    (hp : pose0.data = List.replicate 72 0)
    (hdec : ∀ i, i < m.K → 1 ≤ i → m.parent i < i)
    (hw : ∀ row ∈ m.weights, (∀ x ∈ row, 0 ≤ x) ∧ row.sum = 1)
    (h : (set_params m g0 s (some pose0) (some (List.replicate 10 0))
      (some (List.replicate 3 0))).2 = .ok v) :
    v.length = m.v_template.length ∧
    ∀ i, i < v.length → ∀ l : Fin 3,
      |v.getD i 0 l - m.v_template.getD i 0 l| ≤
        tolC m * (1 - Real.cos eps64) := by
  have hr := set_params_res m g0 s (some pose0) (some (List.replicate 10 0))
    (some (List.replicate 3 0))
  rw [h] at hr
  simp only [Option.getD_some] at hr
  by_cases hc : updChecks m pose0 (List.replicate 10 0) (List.replicate 3 0)
  case neg =>
    rw [if_neg hc] at hr
    exact Except.noConfusion hr
  rw [if_pos hc] at hr
  have hv : v = computeVerts m g0 pose0 (List.replicate 10 0)
      (List.replicate 3 0) := by simpa using hr
  subst hv
  obtain ⟨⟨_, c2⟩, _, _, _, _, r3, _, _, r6, _, r8, r9, r10, r11, _⟩ := hc
  have hc0 : 0 ≤ Real.cos eps64 := cos_eps_nonneg
  have hc1 : Real.cos eps64 ≤ 1 := cos_eps_le_one
  have h1c : 0 ≤ 1 - Real.cos eps64 := by linarith
  have hJb : ∀ j (l : Fin 3),
      |(restJ m (List.replicate 10 0)).getD j 0 l| ≤ MJ m :=
    fun j l => restJ_bound m c2 j l
  have hJlen : (restJ m (List.replicate 10 0)).length = 24 := by
    unfold restJ
    rw [List.length_map]
    exact r8
  have hRs : poseR pose0 = List.replicate 24 (Real.cos eps64 • (1 : Mat3)) :=
    poseR_rest pose0 hp
  have hloc0 : locMats m (poseR pose0) (restJ m (List.replicate 10 0)) 0 =
      with_zeros (Real.cos eps64 • 1)
        ((restJ m (List.replicate 10 0)).getD 0 0) := by
    unfold locMats
    rw [if_pos rfl, hRs, getD_replicate_lt 24 0 _ _ (by norm_num)]
  have hloci : ∀ i, 1 ≤ i → i < m.K →
      locMats m (poseR pose0) (restJ m (List.replicate 10 0)) i =
        with_zeros (Real.cos eps64 • 1)
          ((restJ m (List.replicate 10 0)).getD i 0 -
            (restJ m (List.replicate 10 0)).getD (m.parent i) 0) := by
    intro i h1 h2
    unfold locMats
    rw [if_neg (by omega), hRs, getD_replicate_lt 24 i _ _ (by omega)]
  have hchain := Gchain_rest m.parent (restJ m (List.replicate 10 0)) (MJ m)
    (MJ_nonneg m) hJb m.K hdec
    (locMats m (poseR pose0) (restJ m (List.replicate 10 0))) hloc0 hloci
  have hGlen : (buildG m.K m.parent
      (locMats m (poseR pose0) (restJ m (List.replicate 10 0))) g0).length =
      m.K := buildG_length _ _ _ _ hdec
  have hGget := buildG_getD m.K m.parent
    (locMats m (poseR pose0) (restJ m (List.replicate 10 0))) g0 hdec
  have hGplen : (gPrime (buildG m.K m.parent
      (locMats m (poseR pose0) (restJ m (List.replicate 10 0))) g0)
      (restJ m (List.replicate 10 0))).length = m.K := by
    unfold gPrime
    rw [List.length_zipWith, hGlen, hJlen, r9, min_self]
  have hvp : vPosed m pose0 (List.replicate 10 0) =
      List.zipWith (· + ·) m.v_template
        (pdirsDot m (lrotmin (poseR pose0))) := by
    unfold vPosed
    rw [vShaped_zero m c2]
  have hpdlen : (pdirsDot m (lrotmin (poseR pose0))).length =
      m.v_template.length := by
    unfold pdirsDot
    rw [List.length_map, r3]
  have hvpl : (vPosed m pose0 (List.replicate 10 0)).length =
      m.v_template.length := by
    rw [hvp, List.length_zipWith, hpdlen, min_self]
  have hlen : (computeVerts m g0 pose0 (List.replicate 10 0)
      (List.replicate 3 0)).length = m.v_template.length := by
    unfold computeVerts
    rw [List.length_zipWith, List.length_map, r11, hvpl, min_self]
  have hscalar : ∀ (c : ℝ), 0 ≤ c → c ≤ 1 → ∀ (k : ℕ) (Kr : ℝ),
      (k : ℝ) ≤ Kr → 0 ≤ Kr → ∀ (P V Jl T pdB vtB mjB j2 : ℝ),
      |P| ≤ (1 - c) * pdB → 0 ≤ pdB → |V| ≤ vtB → |Jl| ≤ mjB → 0 ≤ mjB →
      |T - Jl| ≤ (1 - c) * (2 * mjB * j2) → j2 ≤ Kr ^ 2 →
      |c ^ k * (V + P) + (T - c ^ k * Jl) - V| ≤
        (pdB + Kr * (vtB + pdB + mjB) + 2 * mjB * Kr ^ 2) * (1 - c) := by
    intro c hcc0 hcc1 k Kr hkK hKnn P V Jl T pdB vtB mjB j2 hP hpdB hV hJ hmjB
      hT hj2
    have hck : c ^ k ≤ 1 := pow_le_one₀ hcc0 hcc1
    have h1c' : (0 : ℝ) ≤ 1 - c := by linarith
    have e1 : |c ^ k - 1| ≤ Kr * (1 - c) := by
      rw [abs_sub_comm, abs_of_nonneg (by linarith)]
      calc 1 - c ^ k ≤ (k : ℝ) * (1 - c) := one_sub_pow_le c hcc0 hcc1 k
        _ ≤ Kr * (1 - c) := mul_le_mul_of_nonneg_right hkK h1c'
    have hP' : |P| ≤ pdB := by
      calc |P| ≤ (1 - c) * pdB := hP
        _ ≤ 1 * pdB := mul_le_mul_of_nonneg_right (by linarith) hpdB
        _ = pdB := one_mul _
    have e2 : |V + P - Jl| ≤ vtB + pdB + mjB := by
      have h1 := abs_add V P
      have h2 := abs_sub (V + P) Jl
      linarith
    have e3 : |T - Jl| ≤ (1 - c) * (2 * mjB * Kr ^ 2) := by
      calc |T - Jl| ≤ (1 - c) * (2 * mjB * j2) := hT
        _ ≤ (1 - c) * (2 * mjB * Kr ^ 2) := by
          apply mul_le_mul_of_nonneg_left _ h1c'
          nlinarith
    have e4 : |c ^ k - 1| * |V + P - Jl| ≤ (Kr * (1 - c)) * (vtB + pdB + mjB) :=
      mul_le_mul e1 e2 (abs_nonneg _) (mul_nonneg hKnn h1c')
    have hxt : c ^ k * (V + P) + (T - c ^ k * Jl) - V =
        P + (c ^ k - 1) * (V + P - Jl) + (T - Jl) := by ring
    rw [hxt]
    have habs : |P + (c ^ k - 1) * (V + P - Jl) + (T - Jl)| ≤
        |P| + |c ^ k - 1| * |V + P - Jl| + |T - Jl| := by
      have h1 := abs_add (P + (c ^ k - 1) * (V + P - Jl)) (T - Jl)
      have h2 := abs_add P ((c ^ k - 1) * (V + P - Jl))
      have h3 := abs_mul (c ^ k - 1) (V + P - Jl)
      linarith
    have hring : (1 - c) * pdB + (Kr * (1 - c)) * (vtB + pdB + mjB) +
        (1 - c) * (2 * mjB * Kr ^ 2) =
        (pdB + Kr * (vtB + pdB + mjB) + 2 * mjB * Kr ^ 2) * (1 - c) := by
      ring
    linarith
  refine ⟨hlen, ?_⟩
  intro i hi l
  have hiN : i < m.v_template.length := by rwa [hlen] at hi
  have hiw : i < m.weights.length := by rwa [r11]
  have hivp : i < (vPosed m pose0 (List.replicate 10 0)).length := by
    rwa [hvpl]
  rw [List.getD_eq_getElem _ _ hi]
  simp only [computeVerts, List.getElem_zipWith, List.getElem_map]
  rw [Pi.add_apply, transVec_replicate_zero, add_zero, applyT_blend,
    ← List.getD_eq_getElem m.weights [] hiw,
    ← List.getD_eq_getElem (vPosed m pose0 (List.replicate 10 0)) 0 hivp]
  have hrowmem : m.weights.getD i [] ∈ m.weights := by
    rw [List.getD_eq_getElem m.weights [] hiw]
    exact List.getElem_mem hiw
  have hrow := hw (m.weights.getD i []) hrowmem
  have hlen2 : (m.weights.getD i []).length =
      (gPrime (buildG m.K m.parent
        (locMats m (poseR pose0) (restJ m (List.replicate 10 0))) g0)
        (restJ m (List.replicate 10 0))).length := by
    rw [hGplen]
    exact r10 (m.weights.getD i []) hrowmem
  have hvpi : (vPosed m pose0 (List.replicate 10 0)).getD i 0 =
      m.v_template.getD i 0 +
        (pdirsDot m (lrotmin (poseR pose0))).getD i 0 := by
    have h2 : i < (pdirsDot m (lrotmin (poseR pose0))).length := by
      rwa [hpdlen]
    have h1 : i < (List.zipWith (· + ·) m.v_template
        (pdirsDot m (lrotmin (poseR pose0)))).length := by
      rw [List.length_zipWith, hpdlen, min_self]
      exact hiN
    rw [hvp, List.getD_eq_getElem _ 0 h1, List.getElem_zipWith,
      ← List.getD_eq_getElem m.v_template 0 hiN,
      ← List.getD_eq_getElem (pdirsDot m (lrotmin (poseR pose0))) 0 h2]
  have hpdl : ∀ l' : Fin 3,
      |(pdirsDot m (lrotmin (poseR pose0))).getD i 0 l'| ≤
        (1 - Real.cos eps64) * pdA m :=
    fun l' => pd_coord_le m _ (lrotmin_rest_bound pose0 hp) i (by rwa [r3]) l'
  have hvtl : ∀ l' : Fin 3, |m.v_template.getD i 0 l'| ≤ vtM m := by
    intro l'
    rw [List.getD_eq_getElem _ 0 hiN]
    exact vt_coord_le m _ (List.getElem_mem hiN) l'
  have hGbound : ∀ G ∈ gPrime (buildG m.K m.parent
      (locMats m (poseR pose0) (restJ m (List.replicate 10 0))) g0)
      (restJ m (List.replicate 10 0)),
      |applyT G ((vPosed m pose0 (List.replicate 10 0)).getD i 0) l -
        m.v_template.getD i 0 l| ≤ tolC m * (1 - Real.cos eps64) := by
    intro G hGmem
    obtain ⟨j, hj, hjE⟩ := List.mem_iff_getElem.1 hGmem
    rw [← hjE, ← List.getD_eq_getElem _ 0 hj]
    have hjK : j < m.K := by rwa [hGplen] at hj
    have hjG : j < (buildG m.K m.parent
        (locMats m (poseR pose0) (restJ m (List.replicate 10 0)))
          g0).length := by
      rwa [hGlen]
    have hjJ : j < (restJ m (List.replicate 10 0)).length := by
      rw [hJlen]
      omega
    obtain ⟨k, τ, hGc, hk1, hk2, hτ⟩ := hchain j hjK
    have hGpj : (gPrime (buildG m.K m.parent
        (locMats m (poseR pose0) (restJ m (List.replicate 10 0))) g0)
        (restJ m (List.replicate 10 0))).getD j 0 =
        with_zeros (Real.cos eps64 ^ k • 1)
          (τ - Real.cos eps64 ^ k •
            (restJ m (List.replicate 10 0)).getD j 0) := by
      unfold gPrime
      rw [List.getD_eq_getElem _ 0 (by simpa [gPrime] using hj),
        List.getElem_zipWith, ← List.getD_eq_getElem _ 0 hjG,
        ← List.getD_eq_getElem _ 0 hjJ, hGget j hjK, hGc, gPrime_entry_eq,
        smul_one_mulVec]
    rw [hGpj, applyT_with_zeros, smul_one_mulVec, hvpi]
    simp only [Pi.add_apply, Pi.sub_apply, Pi.smul_apply, smul_eq_mul]
    have hKtol : tolC m * (1 - Real.cos eps64) =
        (pdA m + (m.K : ℝ) * (vtM m + pdA m + MJ m) +
          2 * MJ m * (m.K : ℝ) ^ 2) * (1 - Real.cos eps64) := rfl
    rw [hKtol]
    apply hscalar (Real.cos eps64) hc0 hc1 k (m.K : ℝ)
      (by exact_mod_cast (show k ≤ m.K by omega)) (Nat.cast_nonneg _)
      _ _ _ _ _ _ _ ((j : ℝ) ^ 2) (hpdl l) (pdA_nonneg m) (hvtl l)
      (hJb j l) (MJ_nonneg m) (hτ l)
    have hjr : (j : ℝ) ≤ (m.K : ℝ) := by
      exact_mod_cast (show j ≤ m.K by omega)
    have hjnn : (0 : ℝ) ≤ (j : ℝ) := Nat.cast_nonneg _
    nlinarith
  exact weighted_sum_close
    (fun G => applyT G ((vPosed m pose0 (List.replicate 10 0)).getD i 0) l)
    (m.v_template.getD i 0 l) (tolC m * (1 - Real.cos eps64))
    (m.weights.getD i []) _ hlen2 hrow.1 hrow.2 hGbound

set_option maxRecDepth 10000 in
/-- Witness for C5: the rest run on the concrete rig `M0` (whose parents
decrease and whose weight rows are convex) stays within the tolerance of
its template. -/
theorem C5_witness :
    (computeVerts M0 g0def s00.pose (List.replicate 10 0)
        (List.replicate 3 0)).length = M0.v_template.length ∧
    ∀ i, i < (computeVerts M0 g0def s00.pose (List.replicate 10 0)
        (List.replicate 3 0)).length → ∀ l : Fin 3,
      |(computeVerts M0 g0def s00.pose (List.replicate 10 0)
          (List.replicate 3 0)).getD i 0 l - M0.v_template.getD i 0 l| ≤
        tolC M0 * (1 - Real.cos eps64) :=
  C5_identity_at_rest M0 g0def s00 s00.pose
    (computeVerts M0 g0def s00.pose (List.replicate 10 0)
      (List.replicate 3 0)) rfl (by decide)
    (by simp [M0, List.mem_replicate, List.sum_replicate]) rfl

end

end SMPL
